import Mathlib

/-!
# FDIR controller: ring buffer, feature extractor, isolation-forest scorer, state machine

Shallow embedding of `firmware_raspberry/main/{params.h, features_if.c, power_fdir.c}`.

Conventions of the embedding.

* A finite binary32 (`float`) value is an integer number of units of `2^-149`;
  the section on binary32 arithmetic gives the operations `+ - * /`, the
  conversion of integers and of decimal literals, all rounding to nearest, ties
  to even.
* The decisions of `rules_triggered` and `fdir_step` compare the `float` fields
  of a feature vector with `float` constants. A comparison of two binary32
  values is exact, so there a `float` is an element of an arbitrary linearly
  ordered field `α`, and every constant is the exact value (`b32_val`) of the
  binary32 number the compiler produces for it (`0.8f` is `13421773/2^24`, the
  product `THR_DIDT_A_PER_MS*0.8f` is rounded to binary32).
* The arithmetic of `feats_compute` and of the isolation-forest scorer is
  embedded over an arbitrary linearly ordered field `α` (instantiated with `ℚ`
  to evaluate and with `ℝ` to state the numerical results): this is the
  arithmetic of the code read over the reals, without rounding, the constants
  having their decimal values. The droop, the efficiency slope and the tree
  traversal are embedded a second time in binary32, as the code executes them
  (`feats_compute_b32`, `tree_walk_exit_b32`).
* `uint16_t` values are natural numbers; where the C code converts an `int`
  expression to `uint16_t` the reduction modulo `2^16` is written out.
* C `/` and `%` on `int`/`long` are `Int.tdiv` and `Int.tmod` (truncation).
* The file-scope objects (`rb`, `st`, `dwell_hits`, `deadline`, the GPIO lines)
  are fields of explicit state records passed to and returned by each function.
* The libm functions `logf` and `powf` are arguments of the functions that call
  them; the theorems instantiate them with `Real.log` and real exponentiation.
-/

set_option linter.unusedSectionVars false

namespace FDIR

/-! ## Binary32 arithmetic

A finite binary32 value is written as the integer number of units of `2^-149`
(the smallest subnormal); every finite binary32 value is such an integer. The
operations round to nearest, ties to even, subnormal results included. Overflow
to infinity, NaN and the sign of zero are not modelled, and `b32_div` is meant
for a non-zero divisor. -/

/-- The binary32 value 1.0 in units of `2^-149`, that is `2^149`. -/
def b32_one : Nat := 713623846352979940529142984724747568191373312

/-- Number of halvings that bring `n` below `2^24`; `fuel` bounds the count. -/
def shift_count : Nat → Nat → Nat
  | 0, _ => 0
  | fuel + 1, n => if n < 16777216 then 0 else shift_count fuel (n / 2) + 1

/-- The integer nearest to `p/q`, ties to even. -/
def round_nat (p q : Nat) : Nat :=
  let f := p / q
  let r := p % q
  if 2 * r < q then f else if q < 2 * r then f + 1 else if f % 2 = 0 then f else f + 1

/-- The binary32 value nearest to the non-negative rational `p/q` (in units of
`2^-149`): its significand has 24 bits, so the spacing is `2^k` units where `k`
is the number of halvings that bring `p/q` below `2^24`. -/
def b32_round_nat (p q : Nat) : Nat :=
  let k := shift_count 300 (p / q)
  round_nat p (q * 2 ^ k) * 2 ^ k

/-- The binary32 value nearest to the rational `p/q` (in units of `2^-149`). -/
def b32_round (p : Int) (q : Nat) : Int :=
  if p < 0 then -((b32_round_nat p.natAbs q : Nat) : Int)
  else ((b32_round_nat p.natAbs q : Nat) : Int)

/-- binary32 addition. -/
def b32_add (a b : Int) : Int := b32_round (a + b) 1
/-- binary32 subtraction. -/
def b32_sub (a b : Int) : Int := b32_round (a - b) 1
/-- binary32 multiplication. -/
def b32_mul (a b : Int) : Int := b32_round (a * b) b32_one
/-- binary32 division, for `b` other than 0. -/
def b32_div (a b : Int) : Int :=
  if b < 0 then b32_round (-(a * (b32_one : Int))) b.natAbs
  else b32_round (a * (b32_one : Int)) b.natAbs
/-- Conversion `(float)n` of an integer. -/
def b32_of_int (n : Int) : Int := b32_round (n * (b32_one : Int)) 1
/-- The binary32 value of the decimal literal `p/q`. -/
def b32_lit (p : Int) (q : Nat) : Int := b32_round (p * (b32_one : Int)) q

/-! ## params.h -/

/-- Raw effective sample rate in Hz (`FS_HZ`). -/
@[reducible] def FS_HZ : Nat := 10000
/-- Feature window length in ms (`WIN_MS`). -/
@[reducible] def WIN_MS : Nat := 2
/-- Consecutive windows required to trigger (`DWELL_HITS`). -/
@[reducible] def DWELL_HITS : Int := 2
/-- Power-off time in ms (`HOLDOFF_MS`). -/
@[reducible] def HOLDOFF_MS : Int := 10
/-- Post-restart verification time in ms (`VERIFY_MS`). -/
@[reducible] def VERIFY_MS : Int := 100
/-- Ripple sensing switch (`USE_RIPPLE`). -/
@[reducible] def USE_RIPPLE : Bool := false
/-- BCM line of the regulator enable (`PIN_REG_EN`). -/
@[reducible] def PIN_REG_EN : Int := 5
/-- Optional eFuse enable line, -1 when unused (`PIN_EFUSE_EN`). -/
@[reducible] def PIN_EFUSE_EN : Int := -1

/-- The binary32 number of the literal `0.8f` of `THR_DIDT_A_PER_MS`. -/
def THR_DIDT_A_PER_MS_b32 : Int := b32_lit 8 10
/-- The binary32 number of the literal `0.040f` of `THR_DROOP_V`. -/
def THR_DROOP_V_b32 : Int := b32_lit 40 1000
/-- The binary32 number of the literal `0.030f` of `THR_RIPPLE_V`. -/
def THR_RIPPLE_V_b32 : Int := b32_lit 30 1000

section Thresholds
variable (α : Type) [LinearOrderedField α]

/-- The value in `α` of the binary32 number `a`, given in units of `2^-149`. -/
def b32_val (a : Int) : α := (a : α) / (b32_one : α)

/-- Rule threshold `THR_DIDT_A_PER_MS = 0.8f` (A/ms): the value of the binary32
number `0.8f`, which is `13421773/16777216`. -/
def THR_DIDT_A_PER_MS : α := b32_val α THR_DIDT_A_PER_MS_b32
/-- Rule threshold `THR_DROOP_V = 0.040f` (V): the value of the binary32 number
`0.040f`, which is `5368709/134217728`. -/
def THR_DROOP_V : α := b32_val α THR_DROOP_V_b32
/-- Rule threshold `THR_RIPPLE_V = 0.030f` (V): the value of the binary32 number
`0.030f`, which is `16106127/536870912`. -/
def THR_RIPPLE_V : α := b32_val α THR_RIPPLE_V_b32

end Thresholds

/-! ## features_if.c: ring buffer -/

/-- Ring capacity `BUF_MAX = (FS_HZ/1000) * (WIN_MS + 4)`. -/
@[reducible] def BUF_MAX : Nat := (FS_HZ / 1000) * (WIN_MS + 4)

/-- One synchronized reading of the six channels, the argument list of
`feats_push_raw`. -/
structure RawSample (α : Type) where
  vin : α
  iin : α
  vout : α
  iout : α
  temp : α
  ripple : α

/-- The ring buffer `rawbuf_t`: six channel arrays (indexed by slot), the write
cursor `idx` and the fill level `count`. -/
structure rawbuf_t (α : Type) where
  vin : Nat → α
  iin : Nat → α
  vout : Nat → α
  iout : Nat → α
  temp : Nat → α
  ripple : Nat → α
  idx : Nat
  count : Nat

/-- Feature vector `features_t`. -/
structure features_t (α : Type) where
  dI_dt : α
  Vout_droop : α
  ripple_RMS : α
  efficiency : α
  dEff_dT : α

section Buffer
variable {α : Type} [LinearOrderedField α]

/-- The six channel values stored in slot `i` of the buffer. -/
def rawbuf_t.slot (rb : rawbuf_t α) (i : Nat) : RawSample α :=
  { vin := rb.vin i, iin := rb.iin i, vout := rb.vout i, iout := rb.iout i,
    temp := rb.temp i, ripple := rb.ripple i }

/-- `clampf(x, a, b)`: `x < a ? a : (x > b ? b : x)`. -/
def clampf (x a b : α) : α := if x < a then a else (if x > b then b else x)

/-- `feats_reset`: `memset(&rb, 0, sizeof(rb))`. -/
def feats_reset : rawbuf_t α :=
  { vin := fun _ => 0, iin := fun _ => 0, vout := fun _ => 0, iout := fun _ => 0,
    temp := fun _ => 0, ripple := fun _ => 0, idx := 0, count := 0 }

/-- `feats_push_raw`: store the sample at the cursor, advance the cursor modulo
`BUF_MAX`, and increment `count` while it is below `BUF_MAX`. After `feats_reset`
the cursor stays below `BUF_MAX` (`pushes_idx`), so the store is inside the C
arrays. -/
def feats_push_raw (rb : rawbuf_t α) (vin iin vout iout temp ripple : α) : rawbuf_t α :=
  let i := rb.idx
  { vin := Function.update rb.vin i vin,
    iin := Function.update rb.iin i iin,
    vout := Function.update rb.vout i vout,
    iout := Function.update rb.iout i iout,
    temp := Function.update rb.temp i temp,
    ripple := Function.update rb.ripple i ripple,
    idx := (rb.idx + 1) % BUF_MAX,
    count := if rb.count < BUF_MAX then (rb.count + 1) % 65536 else rb.count }

/-- Push one `RawSample`. -/
def push_sample (rb : rawbuf_t α) (s : RawSample α) : rawbuf_t α :=
  feats_push_raw rb s.vin s.iin s.vout s.iout s.temp s.ripple

/-- The buffer after `feats_reset` followed by the pushes of `l`, oldest first. -/
def pushes (l : List (RawSample α)) : rawbuf_t α :=
  l.foldl push_sample feats_reset

/-- Conversion of a C `int` value to `uint16_t`. -/
def to_u16 (x : Int) : Nat := (x % 65536).toNat

/-- `get_window(samples, &start_idx)`: the returned flag and the content of
`*start_idx` after the call (`start_idx` is its content before the call). -/
def get_window (rb : rawbuf_t α) (samples : Nat) (start_idx : Nat) : Bool × Nat :=
  if rb.count < samples then (false, start_idx)
  else
    let end_ := rb.idx
    let start := to_u16 (Int.tmod ((end_ : Int) + (BUF_MAX : Int) - (samples : Int)) (BUF_MAX : Int))
    (true, start)

/-- `mean_wrap(a, start, n)`, the arithmetic read over the reals: the sum, in
index order, of the `n` slots from `start` on (modulo `BUF_MAX`), divided by `n`.
The function as executed, rounding at every step, is `mean_wrap_b32`. -/
def mean_wrap (a : Nat → α) (start n : Nat) : α :=
  ((List.range n).foldl (fun s k => s + a ((start + k) % BUF_MAX)) 0) / (n : α)

/-- Clipped efficiency of slot `i`, the arithmetic read over the reals:
`clampf(pout / fmaxf(vin*iin, 1e-6f), 0, 1.2f)` with the constants `1e-6` and
`1.2`. In binary32 it is `eff_at_b32`. -/
def eff_at (rb : rawbuf_t α) (i : Nat) : α :=
  let pin := max (rb.vin i * rb.iin i) (1 / 1000000)
  let pout := rb.vout i * rb.iout i
  clampf (pout / pin) 0 (12 / 10)

/-- `feats_compute(out)`, the arithmetic read over the reals: the returned flag
and the content of `*out` after the call (`out` is its content before the call).
The index computations are those of the code; the sums, quotients and the guard
`fabsf(dT) < 1e-6f` are exact, with the constant `1e-6`. The function as
executed in binary32 is `feats_compute_b32`. -/
def feats_compute (rb : rawbuf_t α) (out : features_t α) : Bool × features_t α :=
  let win_samp : Nat := ((FS_HZ / 1000) * WIN_MS) % 65536
  if win_samp < 2 then (false, out)
  else
    let gw := get_window rb win_samp 0
    if !gw.1 then (false, out)
    else
      let start := gw.2
      let dt_s : α := (win_samp : α) / (FS_HZ : α)
      let i0 := rb.iin start
      let i1 := rb.iin ((start + win_samp - 1) % BUF_MAX)
      let dI_dt := (i1 - i0) / (dt_s * 1000)
      let base_n0 : Nat := (win_samp * 5) % 65536
      let base_n : Nat := if base_n0 > rb.count then rb.count else base_n0
      let base_start : Nat :=
        to_u16 (Int.tmod ((rb.idx : Int) + (BUF_MAX : Int) - (base_n : Int)) (BUF_MAX : Int))
      let vout_base := mean_wrap rb.vout base_start base_n
      let vout_win := mean_wrap rb.vout start win_samp
      let Vout_droop := vout_base - vout_win
      let ripple_RMS : α := if USE_RIPPLE then mean_wrap rb.ripple start win_samp else 0
      let s_eta : α :=
        (List.range win_samp).foldl (fun s k => s + eff_at rb ((start + k) % BUF_MAX)) 0
      let efficiency := s_eta / (win_samp : α)
      let q : Nat := if win_samp / 4 ≠ 0 then win_samp / 4 else 1
      let acc : α × α × α × α :=
        (List.range q).foldl
          (fun (a : α × α × α × α) k =>
            let ia := (start + k) % BUF_MAX
            let ib := (start + win_samp - 1 - k) % BUF_MAX
            (a.1 + eff_at rb ia, a.2.1 + eff_at rb ib, a.2.2.1 + rb.temp ia, a.2.2.2 + rb.temp ib))
          (0, 0, 0, 0)
      let eff_a := acc.1 / (q : α)
      let eff_b := acc.2.1 / (q : α)
      let Ta := acc.2.2.1 / (q : α)
      let Tb := acc.2.2.2 / (q : α)
      let dT := Tb - Ta
      let dEff_dT : α := if |dT| < 1 / 1000000 then 0 else (eff_b - eff_a) / dT
      (true, { dI_dt := dI_dt, Vout_droop := Vout_droop, ripple_RMS := ripple_RMS,
               efficiency := efficiency, dEff_dT := dEff_dT })

end Buffer

/-! ## features_if.c: isolation-forest scoring -/

/-- Number of features, `NUM_FEATURES` (5 in every exported header). -/
@[reducible] def NUM_FEATURES : Nat := 5

/-- The symbols that the exporter-generated header `ml/model_iforest.h` defines
(the repository ships only a stub listing them), taken as a parameter of the
scoring functions: tree count, dequantisation scales, normalisation constant,
the Q15 scaler arrays and the flattened forest arrays. -/
structure Model (α : Type) where
  NUM_TREES : Nat
  SCALE_MEAN : α
  SCALE_SCALE : α
  SCALE_THRESHOLDS : α
  IFOREST_C_MAXSAMPLES : α
  scaler_mean_q15 : List Int
  scaler_scale_q15 : List Int
  features_idx : List Int
  thresholds_q15 : List Int
  children_left : List Int
  children_right : List Int
  node_samples : List Int
  tree_offsets : List Int

/-- Array read `a[i]` with a C `int` index: `none` when the index is outside the
array (undefined behaviour in C). -/
def rd {β : Type} (a : List β) (i : Int) : Option β :=
  if 0 ≤ i then a[i.toNat]? else none

section Forest
variable {α : Type} [LinearOrderedField α]

/-- `q15_to_real(q, scale)`, the arithmetic read over the reals:
`((float)q / 32767.0f) * scale` without rounding. In binary32 it is
`q15_to_real_b32`. -/
def q15_to_real (q : Int) (scale : α) : α := ((q : α) / 32767) * scale

/-- One iteration of the loop of `scaler_get`: the dequantised mean and standard
deviation of feature `i`, the latter replaced by 1 when `fabsf(std) < 1e-12f`. -/
def scaler_entry (m : Model α) (i : Nat) : Option (α × α) :=
  match rd m.scaler_mean_q15 i, rd m.scaler_scale_q15 i with
  | some mq, some sq =>
    let mean_out := q15_to_real mq m.SCALE_MEAN
    let std_out := q15_to_real sq m.SCALE_SCALE
    some (mean_out, if |std_out| < 1 / 1000000000000 then 1 else std_out)
  | _, _ => none

/-- The loop of `scaler_get` after features `0 .. i-1`: their `(mean, std)` pairs. -/
def scaler_loop (m : Model α) : Nat → Option (List (α × α))
  | 0 => some []
  | i + 1 =>
    match scaler_loop m i, scaler_entry m i with
    | some acc, some e => some (acc ++ [e])
    | _, _ => none

/-- `scaler_get`: the `(mean, std)` pairs of the `NUM_FEATURES` features. -/
def scaler_get (m : Model α) : Option (List (α × α)) :=
  scaler_loop m NUM_FEATURES

/-- `make_z`: the z-scored vector `(x[i] - mu[i]) / sd[i]` in the model order
`[dI_dt, Vout_droop, ripple_RMS, efficiency, dEff_dT]`. -/
def make_z (m : Model α) (f : features_t α) : Option (List α) :=
  let x : List α := [f.dI_dt, f.Vout_droop, f.ripple_RMS, f.efficiency, f.dEff_dT]
  match scaler_get m with
  | some musd => some (List.zipWith (fun xi p => (xi - p.1) / p.2) x musd)
  | none => none

/-- `c_of(n)`: 0 for `n <= 1`, else
`2*(logf(n-1) + gamma) - 2*(n-1)/n` with `gamma = 0.5772156649015329`. -/
def c_of (logf : α → α) (n : α) : α :=
  if n ≤ 1 then 0
  else
    let gamma : α := 5772156649015329 / 10000000000000000
    2 * (logf (n - 1) + gamma) - (2 * (n - 1) / n)

/-- The loop of `tree_path_length` from the state `(node, steps)` on, the
arithmetic read over the reals (the threshold is `q15_to_real` without rounding,
the returned sum is exact). -/
def tree_walk (logf : α → α) (m : Model α) (z : List α) (node : Int) (steps : Nat) :
    Option α :=
  match rd m.features_idx node, rd m.children_left node, rd m.children_right node with
  | some feat, some left, some right =>
    if left = -1 ∧ right = -1 then
      match rd m.node_samples node with
      | some ns0 =>
        let ns : Int := if ns0 ≤ 0 then 1 else ns0
        some ((steps : α) + c_of logf (ns : α))
      | none => none
    else
      match rd m.thresholds_q15 node, rd z feat with
      | some tq, some val =>
        let thr := q15_to_real tq m.SCALE_THRESHOLDS
        let node1 := if val ≤ thr then left else right
        if h : steps + 1 > 1024 then some (((steps + 1 : Nat) : α))
        else tree_walk logf m z node1 (steps + 1)
      | _, _ => none
  | _, _, _ => none
termination_by 1025 - steps
decreasing_by omega

/-- `tree_path_length(tree_idx, z)`: traverse one tree from its root offset. -/
def tree_path_length (logf : α → α) (m : Model α) (tree_idx : Int) (z : List α) :
    Option α :=
  match rd m.tree_offsets tree_idx with
  | some node => tree_walk logf m z node 0
  | none => none

/-- The accumulation loop of `iforest_score`: `sum_h` after trees `0 .. t-1`. -/
def sum_path_lengths (logf : α → α) (m : Model α) (z : List α) : Nat → Option α
  | 0 => some 0
  | t + 1 =>
    match sum_path_lengths logf m z t, tree_path_length logf m (t : Int) z with
    | some s, some h => some (s + h)
    | _, _ => none

/-- The local `Eh` of `iforest_score`: `sum_h / (float)NUM_TREES`. -/
def avg_path_length (logf : α → α) (m : Model α) (z : List α) : Option α :=
  match sum_path_lengths logf m z m.NUM_TREES with
  | some sum_h => some (sum_h / (m.NUM_TREES : α))
  | none => none

/-- The divisor of the exponent in `iforest_score`: `cmax > 1e-9f ? cmax : 1.0f`. -/
def score_divisor (cmax : α) : α := if cmax > 1 / 1000000000 then cmax else 1

/-- `iforest_score(f)`: `powf(2, -Eh / (cmax > 1e-9f ? cmax : 1.0f))`. -/
def iforest_score (logf : α → α) (powf : α → α → α) (m : Model α) (f : features_t α) :
    Option α :=
  match make_z m f with
  | some z =>
    match avg_path_length logf m z with
    | some Eh =>
      let cmax := m.IFOREST_C_MAXSAMPLES
      some (powf 2 (-Eh / score_divisor cmax))
    | none => none
  | none => none

/-- `rules_triggered(f)`. -/
def rules_triggered (f : features_t α) : Bool :=
  let rule0 : Bool := false
  let rule1 : Bool :=
    if f.dI_dt > THR_DIDT_A_PER_MS α ∧ f.Vout_droop > THR_DROOP_V α then true else rule0
  if USE_RIPPLE then (if f.ripple_RMS > THR_RIPPLE_V α then true else rule1) else rule1

end Forest

/-! ## power_fdir.c -/

/-- States of the automaton, `fdir_state_t`. -/
inductive fdir_state_t where
  | ST_NORMAL
  | ST_HOLD
  | ST_VERIFY
  | ST_SAFE
  deriving DecidableEq, Repr

/-- A `struct timespec`. -/
structure timespec where
  tv_sec : Int
  tv_nsec : Int
  deriving DecidableEq, Repr

/-- A reading as `clock_gettime` returns it: `0 <= tv_nsec < 10^9`. -/
def timespec.normalised (t : timespec) : Prop := 0 ≤ t.tv_nsec ∧ t.tv_nsec < 1000000000

instance (t : timespec) : Decidable t.normalised := by
  unfold timespec.normalised; infer_instance

/-- Value of a `timespec` in nanoseconds. -/
def timespec.ns (t : timespec) : Int := t.tv_sec * 1000000000 + t.tv_nsec

/-- The two actuator entry points. -/
inductive power_call where
  | cut
  | restart_soft
  deriving DecidableEq, Repr

/-- File-scope state of `power_fdir.c`: `st`, `dwell_hits`, `deadline`, the two
GPIO lines (`none` for a NULL line pointer, otherwise the level last driven) and,
as a ghost field, the calls of `power_cut`/`power_restart_soft` so far. -/
structure fdir_ctx where
  st : fdir_state_t
  dwell_hits : Int
  deadline : timespec
  en_line : Option Bool
  ef_line : Option Bool
  calls : List power_call
  deriving DecidableEq, Repr

/-- The static initialisers: `ST_NORMAL`, `dwell_hits = 0`, NULL lines,
`deadline = {0,0}`. -/
def fdir_ctx.initial : fdir_ctx :=
  { st := fdir_state_t.ST_NORMAL, dwell_hits := 0, deadline := { tv_sec := 0, tv_nsec := 0 },
    en_line := none, ef_line := none, calls := [] }

/-- `set_deadline_ms(ms)`, with `now` the reading its `clock_gettime` returns.
The fields are unbounded integers (for a normalised reading and `0 <= ms` the
intermediate `tv_nsec` stays below `2 * 10^9`). -/
def set_deadline_ms (now : timespec) (ms : Int) : timespec :=
  let nsec1 := now.tv_nsec + (Int.tmod ms 1000) * 1000000
  let sec1 := now.tv_sec + (Int.tdiv ms 1000 + Int.tdiv nsec1 1000000000)
  { tv_sec := sec1, tv_nsec := Int.tmod nsec1 1000000000 }

/-- `deadline_done()`, with `now` the reading its `clock_gettime` returns. -/
def deadline_done (now deadline : timespec) : Bool :=
  decide (now.tv_sec > deadline.tv_sec) ||
    (decide (now.tv_sec = deadline.tv_sec) && decide (now.tv_nsec ≥ deadline.tv_nsec))

/-- `gpio_set(ln, val)`: drive the line to `val ? 1 : 0` unless it is NULL. -/
def gpio_set (ln : Option Bool) (val : Int) : Option Bool :=
  match ln with
  | some _ => some (decide (val ≠ 0))
  | none => none

/-- `power_init()`: `chip_ok`, `en_ok`, `ef_ok` tell whether the libgpiod calls
opening the chip and getting and requesting each line (as an output at level 1)
succeed. On a failure `main` exits; the line pointers on that path are left as
they were. -/
def power_init (c : fdir_ctx) (chip_ok en_ok ef_ok : Bool) : Bool × fdir_ctx :=
  if !chip_ok then (false, c)
  else
    let r1 : Option (fdir_ctx) :=
      if PIN_REG_EN ≥ 0 then (if en_ok then some { c with en_line := some true } else none)
      else some c
    match r1 with
    | none => (false, c)
    | some c1 =>
      let r2 : Option (fdir_ctx) :=
        if PIN_EFUSE_EN ≥ 0 then (if ef_ok then some { c1 with ef_line := some true } else none)
        else some c1
      match r2 with
      | none => (false, c1)
      | some c2 =>
        (true, { c2 with en_line := gpio_set c2.en_line 1, ef_line := gpio_set c2.ef_line 1 })

/-- `power_cut()`. -/
def power_cut (c : fdir_ctx) : fdir_ctx :=
  { c with en_line := gpio_set c.en_line 0, ef_line := gpio_set c.ef_line 0,
           calls := c.calls ++ [power_call.cut] }

/-- `power_restart_soft()`. -/
def power_restart_soft (c : fdir_ctx) : fdir_ctx :=
  { c with ef_line := gpio_set c.ef_line 1, en_line := gpio_set c.en_line 1,
           calls := c.calls ++ [power_call.restart_soft] }

section Fdir
variable {α : Type} [LinearOrderedField α]

/-- `fdir_step(anomaly, f, score)`. A tick calls `clock_gettime` at most once
inside `deadline_done` and at most once inside `set_deadline_ms`: `now_done` and
`now_arm` are the readings these calls return. `dwell_hits` is an unbounded
integer (the counter never exceeds `DWELL_HITS` from the initial state). The
relatch thresholds `THR_DIDT_A_PER_MS*0.8f` and `THR_DROOP_V*0.8f` are products
of two binary32 numbers, rounded to binary32. -/
def fdir_step (c : fdir_ctx) (now_done now_arm : timespec) (anomaly : Bool)
    (f : features_t α) (_score : α) : fdir_ctx :=
  match c.st with
  | fdir_state_t.ST_NORMAL =>
    if anomaly then
      let c1 := { c with dwell_hits := c.dwell_hits + 1 }
      if c1.dwell_hits ≥ DWELL_HITS then
        let c2 := power_cut c1
        { c2 with deadline := set_deadline_ms now_arm HOLDOFF_MS, st := fdir_state_t.ST_HOLD }
      else c1
    else { c with dwell_hits := 0 }
  | fdir_state_t.ST_HOLD =>
    if deadline_done now_done c.deadline then
      let c1 := power_restart_soft c
      { c1 with deadline := set_deadline_ms now_arm VERIFY_MS, st := fdir_state_t.ST_VERIFY }
    else c
  | fdir_state_t.ST_VERIFY =>
    let relatch : Bool :=
      decide (f.dI_dt > b32_val α (b32_mul THR_DIDT_A_PER_MS_b32 (b32_lit 8 10))) &&
        decide (f.Vout_droop > b32_val α (b32_mul THR_DROOP_V_b32 (b32_lit 8 10)))
    if relatch then
      { power_cut c with st := fdir_state_t.ST_SAFE }
    else if deadline_done now_done c.deadline then
      { c with st := fdir_state_t.ST_NORMAL, dwell_hits := 0 }
    else c
  | fdir_state_t.ST_SAFE => c

/-- The inputs of one control-loop tick. -/
structure tick (α : Type) where
  now_done : timespec
  now_arm : timespec
  anomaly : Bool
  f : features_t α
  score : α

/-- One tick of the automaton on a `tick` record. -/
def fdir_tick (c : fdir_ctx) (t : tick α) : fdir_ctx :=
  fdir_step c t.now_done t.now_arm t.anomaly t.f t.score

/-- A sequence of ticks, oldest first. -/
def fdir_run (c : fdir_ctx) (ts : List (tick α)) : fdir_ctx :=
  ts.foldl fdir_tick c

end Fdir

/-! ## Reference quantities for the feature claims -/

/-- The `n` most recently pushed samples of the push sequence `l`, oldest first. -/
def last_n {β : Type} (l : List β) (n : Nat) : List β := l.drop (l.length - n)

section Reference
variable {α : Type} [LinearOrderedField α]

/-- Arithmetic mean of a list of values. -/
def mean_of (xs : List α) : α := xs.sum / (xs.length : α)

/-- Clipped efficiency of one sample, in the words of the specification:
`clamp(output_power / max(input_power, 1e-6), 0, 1.2)`. -/
def eff_sample (s : RawSample α) : α :=
  clampf ((s.vout * s.iout) / max (s.vin * s.iin) (1 / 1000000)) 0 (12 / 10)

end Reference

/-- Window length in samples, `win = (FS_HZ/1000) * WIN_MS`. -/
@[reducible] def win_samples : Nat := (FS_HZ / 1000) * WIN_MS

section ReferenceFeatures
variable {α : Type} [LinearOrderedField α]

/-- Droop in the words of the specification: mean output voltage over the
`min(5*win, count)` most recent samples minus mean output voltage over the `win`
most recent samples. -/
def droop_spec (l : List (RawSample α)) (count : Nat) : α :=
  mean_of ((last_n l (min (5 * win_samples) count)).map (fun s => s.vout))
    - mean_of ((last_n l win_samples).map (fun s => s.vout))

/-- Efficiency in the words of the specification: mean over the window of the
clipped per-sample efficiency. -/
def efficiency_spec (l : List (RawSample α)) : α :=
  mean_of ((last_n l win_samples).map eff_sample)

end ReferenceFeatures

/-! ## Tree traversal: exit kind, and reference notions for the traversal claims -/

/-- How the loop of `tree_path_length` ended: at the leaf `node` after `steps`
descents, `ns` being `node_samples[node]` raised to at least 1, or at the depth
cap after `steps` descents. -/
inductive walk_exit where
  | at_leaf (node : Int) (steps : Nat) (ns : Int)
  | capped (steps : Nat)
  deriving DecidableEq, Repr

/-- Number of descents made when the loop ended. -/
def walk_exit.steps : walk_exit → Nat
  | walk_exit.at_leaf _ steps _ => steps
  | walk_exit.capped steps => steps

section Traversal
variable {α : Type} [LinearOrderedField α]

/-- The value `tree_path_length` returns at each exit: `(float)steps + c_of(ns)`
at a leaf, `(float)steps` at the cap. -/
def walk_exit.value (logf : α → α) : walk_exit → α
  | walk_exit.at_leaf _ steps ns => (steps : α) + c_of logf (ns : α)
  | walk_exit.capped steps => ((steps : Nat) : α)

/-- The loop of `tree_path_length` with the same reads and tests as `tree_walk`,
returning the exit taken instead of the number returned there. -/
def tree_walk_exit (m : Model α) (z : List α) (node : Int) (steps : Nat) : Option walk_exit :=
  match rd m.features_idx node, rd m.children_left node, rd m.children_right node with
  | some feat, some left, some right =>
    if left = -1 ∧ right = -1 then
      match rd m.node_samples node with
      | some ns0 =>
        let ns : Int := if ns0 ≤ 0 then 1 else ns0
        some (walk_exit.at_leaf node steps ns)
      | none => none
    else
      match rd m.thresholds_q15 node, rd z feat with
      | some tq, some val =>
        let thr := q15_to_real tq m.SCALE_THRESHOLDS
        let node1 := if val ≤ thr then left else right
        if h : steps + 1 > 1024 then some (walk_exit.capped (steps + 1))
        else tree_walk_exit m z node1 (steps + 1)
      | _, _ => none
  | _, _, _ => none
termination_by 1025 - steps
decreasing_by omega

/-- Well-formed tree below `node`, in the words of the specification: a node is
either a leaf (both child ids -1) or has two child ids that are themselves roots
of well-formed trees and a feature index in `0 .. NUM_FEATURES - 1`; every array
entry of the node exists. The number is the height of the tree, that is the
depth of its deepest leaf. -/
inductive well_formed (m : Model α) : Int → Nat → Prop where
  | leaf (node feat ns : Int) :
      rd m.features_idx node = some feat →
      rd m.children_left node = some (-1) →
      rd m.children_right node = some (-1) →
      rd m.node_samples node = some ns →
      well_formed m node 0
  | inner (node feat left right tq : Int) (hl hr : Nat) :
      rd m.features_idx node = some feat → 0 ≤ feat → feat < (NUM_FEATURES : Int) →
      rd m.children_left node = some left →
      rd m.children_right node = some right →
      ¬ (left = -1 ∧ right = -1) →
      rd m.thresholds_q15 node = some tq →
      well_formed m left hl → well_formed m right hr →
      well_formed m node (max hl hr + 1)

/-- The path of the specification from `node`: stop at a leaf; at an internal
node go left when `z[feature] <= threshold_q15/32767*SCALE_THRESHOLDS` and right
otherwise. `path_to m z node leaf d` says that this path reaches `leaf` after
`d` descents. -/
inductive path_to (m : Model α) (z : List α) : Int → Int → Nat → Prop where
  | stop (node : Int) :
      rd m.children_left node = some (-1) →
      rd m.children_right node = some (-1) →
      path_to m z node node 0
  | go_left (node feat left right tq leaf : Int) (val : α) (d : Nat) :
      rd m.features_idx node = some feat →
      rd m.children_left node = some left →
      rd m.children_right node = some right →
      ¬ (left = -1 ∧ right = -1) →
      rd m.thresholds_q15 node = some tq →
      rd z feat = some val →
      val ≤ ((tq : α) / 32767) * m.SCALE_THRESHOLDS →
      path_to m z left leaf d →
      path_to m z node leaf (d + 1)
  | go_right (node feat left right tq leaf : Int) (val : α) (d : Nat) :
      rd m.features_idx node = some feat →
      rd m.children_left node = some left →
      rd m.children_right node = some right →
      ¬ (left = -1 ∧ right = -1) →
      rd m.thresholds_q15 node = some tq →
      rd z feat = some val →
      ¬ val ≤ ((tq : α) / 32767) * m.SCALE_THRESHOLDS →
      path_to m z right leaf d →
      path_to m z node leaf (d + 1)

/-- In-range model with `N` nodes: the five node arrays have `N` entries, and
every node that is not a leaf has child ids in `0 .. N-1` and a feature index in
`0 .. NUM_FEATURES - 1`. Cycles among the child links are allowed. -/
def nodes_in_range (m : Model α) (N : Nat) : Prop :=
  m.features_idx.length = N ∧ m.thresholds_q15.length = N ∧
  m.children_left.length = N ∧ m.children_right.length = N ∧ m.node_samples.length = N ∧
  ∀ (n : Nat) (feat left right : Int), n < N →
    rd m.features_idx (n : Int) = some feat →
    rd m.children_left (n : Int) = some left →
    rd m.children_right (n : Int) = some right →
    ¬ (left = -1 ∧ right = -1) →
    (0 ≤ left ∧ left < (N : Int)) ∧ (0 ≤ right ∧ right < (N : Int)) ∧
      (0 ≤ feat ∧ feat < (NUM_FEATURES : Int))

end Traversal

/-- Test model of one tree of height `d` in `2*d + 1` nodes: the even node
`n < 2*d` splits on feature 0 at threshold 0 into the leaf `n + 1` and the node
`n + 2`; the odd nodes and the node `2*d` are leaves with 2 training samples. -/
def caterpillar (α : Type) [LinearOrderedField α] (d : Nat) : Model α :=
  { NUM_TREES := 1, SCALE_MEAN := 1, SCALE_SCALE := 1, SCALE_THRESHOLDS := 1,
    IFOREST_C_MAXSAMPLES := 2,
    scaler_mean_q15 := [0, 0, 0, 0, 0],
    scaler_scale_q15 := [32767, 32767, 32767, 32767, 32767],
    features_idx := (List.range (2 * d + 1)).map
      (fun n => if n % 2 = 0 ∧ n < 2 * d then (0 : Int) else -2),
    thresholds_q15 := (List.range (2 * d + 1)).map (fun _ => (0 : Int)),
    children_left := (List.range (2 * d + 1)).map
      (fun n => if n % 2 = 0 ∧ n < 2 * d then ((n : Int) + 1) else -1),
    children_right := (List.range (2 * d + 1)).map
      (fun n => if n % 2 = 0 ∧ n < 2 * d then ((n : Int) + 2) else -1),
    node_samples := (List.range (2 * d + 1)).map (fun _ => (2 : Int)),
    tree_offsets := [0] }

/-- Test model with corrupted links: the single node 0 is its own left and right
child. -/
def model_cyclic (α : Type) [LinearOrderedField α] : Model α :=
  { NUM_TREES := 1, SCALE_MEAN := 1, SCALE_SCALE := 1, SCALE_THRESHOLDS := 1,
    IFOREST_C_MAXSAMPLES := 2,
    scaler_mean_q15 := [0, 0, 0, 0, 0],
    scaler_scale_q15 := [32767, 32767, 32767, 32767, 32767],
    features_idx := [0],
    thresholds_q15 := [0],
    children_left := [0],
    children_right := [0],
    node_samples := [5],
    tree_offsets := [0] }

/-- Power/state consistency of a context: the enable line is low in `ST_HOLD`
and `ST_SAFE`, high in `ST_VERIFY` and `ST_NORMAL`, and in `ST_NORMAL` the dwell
counter lies in `0 .. DWELL_HITS - 1`. -/
def power_consistent (c : fdir_ctx) : Prop :=
  (c.en_line = some false ∧
    (c.st = fdir_state_t.ST_HOLD ∨ c.st = fdir_state_t.ST_SAFE)) ∨
  (c.en_line = some true ∧
    (c.st = fdir_state_t.ST_VERIFY ∨
      (c.st = fdir_state_t.ST_NORMAL ∧ 0 ≤ c.dwell_hits ∧ c.dwell_hits < DWELL_HITS)))

section BaselineLocals
variable {α : Type} [LinearOrderedField α]

/-- The local `base_n` of `feats_compute`: `win_samp * 5`, replaced by
`rb.count` when it exceeds `rb.count`. -/
def baseline_len (rb : rawbuf_t α) : Nat :=
  let win_samp : Nat := ((FS_HZ / 1000) * WIN_MS) % 65536
  let base_n0 : Nat := (win_samp * 5) % 65536
  if base_n0 > rb.count then rb.count else base_n0

/-- The local `base_start` of `feats_compute`:
`(rb.idx + BUF_MAX - base_n) % BUF_MAX`. -/
def baseline_start (rb : rawbuf_t α) : Nat :=
  to_u16 (Int.tmod ((rb.idx : Int) + (BUF_MAX : Int) - (baseline_len rb : Int)) (BUF_MAX : Int))

end BaselineLocals

/-! ## features_if.c in binary32

The feature extractor and the tree traversal as the code executes them: every
`float` is a binary32 number in units of `2^-149` and every operation rounds.
The inputs are finite numbers; no operation of `feats_compute` divides by zero
(the divisors are the window lengths, `fmaxf(.., 1e-6f)`, `dt_s * 1000.0f` and a
`dT` that passed the guard). -/

/-- `clampf(x, a, b)` on binary32 numbers. -/
def clampf_b32 (x a b : Int) : Int := if x < a then a else (if x > b then b else x)

/-- `feats_reset` on a buffer of binary32 numbers: all bits zero is `+0.0f`. -/
def feats_reset_b32 : rawbuf_t Int :=
  { vin := fun _ => 0, iin := fun _ => 0, vout := fun _ => 0, iout := fun _ => 0,
    temp := fun _ => 0, ripple := fun _ => 0, idx := 0, count := 0 }

/-- The buffer of binary32 numbers after `feats_reset` followed by the pushes of
`l`, oldest first. -/
def pushes_b32 (l : List (RawSample Int)) : rawbuf_t Int :=
  l.foldl push_sample feats_reset_b32

/-- `mean_wrap(a, start, n)` in binary32: `s += a[..]` rounds at every step, and
so does the division by `(float)n`. -/
def mean_wrap_b32 (a : Nat → Int) (start n : Nat) : Int :=
  b32_div ((List.range n).foldl (fun s k => b32_add s (a ((start + k) % BUF_MAX))) 0)
    (b32_of_int (n : Int))

/-- Clipped efficiency of slot `i` in binary32:
`clampf(pout / fmaxf(vin*iin, 1e-6f), 0.0f, 1.2f)`. -/
def eff_at_b32 (rb : rawbuf_t Int) (i : Nat) : Int :=
  let pin := max (b32_mul (rb.vin i) (rb.iin i)) (b32_lit 1 1000000)
  let pout := b32_mul (rb.vout i) (rb.iout i)
  clampf_b32 (b32_div pout pin) 0 (b32_lit 12 10)

/-- `feats_compute(out)` in binary32: the returned flag and the content of `*out`
after the call. -/
def feats_compute_b32 (rb : rawbuf_t Int) (out : features_t Int) : Bool × features_t Int :=
  let win_samp : Nat := ((FS_HZ / 1000) * WIN_MS) % 65536
  if win_samp < 2 then (false, out)
  else
    let gw := get_window rb win_samp 0
    if !gw.1 then (false, out)
    else
      let start := gw.2
      let dt_s : Int := b32_div (b32_of_int (win_samp : Int)) (b32_of_int (FS_HZ : Int))
      let i0 := rb.iin start
      let i1 := rb.iin ((start + win_samp - 1) % BUF_MAX)
      let dI_dt := b32_div (b32_sub i1 i0) (b32_mul dt_s (b32_lit 1000 1))
      let base_n0 : Nat := (win_samp * 5) % 65536
      let base_n : Nat := if base_n0 > rb.count then rb.count else base_n0
      let base_start : Nat :=
        to_u16 (Int.tmod ((rb.idx : Int) + (BUF_MAX : Int) - (base_n : Int)) (BUF_MAX : Int))
      let vout_base := mean_wrap_b32 rb.vout base_start base_n
      let vout_win := mean_wrap_b32 rb.vout start win_samp
      let Vout_droop := b32_sub vout_base vout_win
      let ripple_RMS : Int := if USE_RIPPLE then mean_wrap_b32 rb.ripple start win_samp else 0
      let s_eta : Int :=
        (List.range win_samp).foldl
          (fun s k => b32_add s (eff_at_b32 rb ((start + k) % BUF_MAX))) 0
      let efficiency := b32_div s_eta (b32_of_int (win_samp : Int))
      let q : Nat := if win_samp / 4 ≠ 0 then win_samp / 4 else 1
      let acc : Int × Int × Int × Int :=
        (List.range q).foldl
          (fun (a : Int × Int × Int × Int) k =>
            let ia := (start + k) % BUF_MAX
            let ib := (start + win_samp - 1 - k) % BUF_MAX
            (b32_add a.1 (eff_at_b32 rb ia), b32_add a.2.1 (eff_at_b32 rb ib),
              b32_add a.2.2.1 (rb.temp ia), b32_add a.2.2.2 (rb.temp ib)))
          (0, 0, 0, 0)
      let eff_a := b32_div acc.1 (b32_of_int (q : Int))
      let eff_b := b32_div acc.2.1 (b32_of_int (q : Int))
      let Ta := b32_div acc.2.2.1 (b32_of_int (q : Int))
      let Tb := b32_div acc.2.2.2 (b32_of_int (q : Int))
      let dT := b32_sub Tb Ta
      let dEff_dT : Int :=
        if |dT| < b32_lit 1 1000000 then 0 else b32_div (b32_sub eff_b eff_a) dT
      (true, { dI_dt := dI_dt, Vout_droop := Vout_droop, ripple_RMS := ripple_RMS,
               efficiency := efficiency, dEff_dT := dEff_dT })

/-- The values in `ℚ` of a sample of binary32 numbers. -/
def RawSample.val (s : RawSample Int) : RawSample ℚ :=
  { vin := b32_val ℚ s.vin, iin := b32_val ℚ s.iin, vout := b32_val ℚ s.vout,
    iout := b32_val ℚ s.iout, temp := b32_val ℚ s.temp, ripple := b32_val ℚ s.ripple }

/-- The model with the values in `ℚ` of the binary32 scales of `m`. -/
def Model.val (m : Model Int) : Model ℚ :=
  { NUM_TREES := m.NUM_TREES, SCALE_MEAN := b32_val ℚ m.SCALE_MEAN,
    SCALE_SCALE := b32_val ℚ m.SCALE_SCALE,
    SCALE_THRESHOLDS := b32_val ℚ m.SCALE_THRESHOLDS,
    IFOREST_C_MAXSAMPLES := b32_val ℚ m.IFOREST_C_MAXSAMPLES,
    scaler_mean_q15 := m.scaler_mean_q15, scaler_scale_q15 := m.scaler_scale_q15,
    features_idx := m.features_idx, thresholds_q15 := m.thresholds_q15,
    children_left := m.children_left, children_right := m.children_right,
    node_samples := m.node_samples, tree_offsets := m.tree_offsets }

/-- A recognisable test sample: all six channels derived from the push number. -/
def sample_of (i : Nat) : RawSample ℚ :=
  { vin := 8, iin := (i : ℚ) / 100, vout := 5, iout := 1 / 2, temp := 40 + (i : ℚ), ripple := 0 }

/-- Test sequence of 62 pushes: the ring (capacity 60) has wrapped by two slots. -/
def pushes62 : List (RawSample ℚ) := (List.range 62).map sample_of

/-- Feature record used as the prior content of the output argument in tests. -/
def out_prior : features_t ℚ :=
  { dI_dt := 1, Vout_droop := 2, ripple_RMS := 3, efficiency := 4, dEff_dT := 5 }

/-- Test model with two trees. Tree 0: root 0 splits on feature 0 at threshold 0
into leaf 1 (2 training samples) and leaf 2 (1 sample). Tree 1: the single leaf 3
with a recorded count of 0. The scaler is the identity. -/
def model_small (α : Type) [LinearOrderedField α] : Model α :=
  { NUM_TREES := 2, SCALE_MEAN := 1, SCALE_SCALE := 1, SCALE_THRESHOLDS := 1,
    IFOREST_C_MAXSAMPLES := 2,
    scaler_mean_q15 := [0, 0, 0, 0, 0],
    scaler_scale_q15 := [32767, 32767, 32767, 32767, 32767],
    features_idx := [0, -2, -2, -2],
    thresholds_q15 := [0, 0, 0, 0],
    children_left := [1, -1, -1, -1],
    children_right := [2, -1, -1, -1],
    node_samples := [3, 2, 1, 0],
    tree_offsets := [0, 3] }

/-- Test feature vector whose first feature lies above the root threshold. -/
def feat_high (α : Type) [LinearOrderedField α] : features_t α :=
  { dI_dt := 1, Vout_droop := 0, ripple_RMS := 0, efficiency := 0, dEff_dT := 0 }

/-- Test feature vector whose first feature lies below the root threshold. -/
def feat_low (α : Type) [LinearOrderedField α] : features_t α :=
  { dI_dt := -1, Vout_droop := 0, ripple_RMS := 0, efficiency := 0, dEff_dT := 0 }

/-- The context after a successful `power_init` on the static initial state. -/
def ctx_powered : fdir_ctx := (power_init fdir_ctx.initial true true true).2

/-- Test feature vector with no fault signature. -/
def feat_quiet : features_t ℚ :=
  { dI_dt := 0, Vout_droop := 0, ripple_RMS := 0, efficiency := 9 / 10, dEff_dT := 0 }

/-- Test feature vector above both relatch thresholds (about 0.64 A/ms and
0.032 V). -/
def feat_relatch : features_t ℚ :=
  { dI_dt := 7 / 10, Vout_droop := 35 / 1000, ripple_RMS := 0, efficiency := 9 / 10,
    dEff_dT := 0 }

/-- Test feature vector whose `dI_dt` and droop are the binary32 numbers next
above the relatch thresholds: `10737420/2^24` and `8589936/2^28`. -/
def feat_relatch_edge : features_t ℚ :=
  { dI_dt := 10737420 / 16777216, Vout_droop := 8589936 / 268435456, ripple_RMS := 0,
    efficiency := 9 / 10, dEff_dT := 0 }

/-- Test tick whose two clock readings are both `(sec, nsec)`. -/
def tick_at (sec nsec : Int) (anomaly : Bool) (f : features_t ℚ) : tick ℚ :=
  { now_done := { tv_sec := sec, tv_nsec := nsec }, now_arm := { tv_sec := sec, tv_nsec := nsec },
    anomaly := anomaly, f := f, score := 0 }

/-- Test context in `ST_VERIFY` whose verification deadline is `(5, 0)`. -/
def ctx_verify : fdir_ctx :=
  { st := fdir_state_t.ST_VERIFY, dwell_hits := 2, deadline := { tv_sec := 5, tv_nsec := 0 },
    en_line := some true, ef_line := none,
    calls := [power_call.cut, power_call.restart_soft] }

/-- Test context after one anomalous tick from `ctx_powered` (counter at 1). -/
def ctx_dwell1 : fdir_ctx := fdir_tick ctx_powered (tick_at 1 0 true feat_quiet)

/-- Test context in `ST_HOLD`, entered by a second anomalous tick at the clock
reading `(1, 995000000)`; the hold deadline is `(2, 5000000)`. -/
def ctx_hold : fdir_ctx := fdir_tick ctx_dwell1 (tick_at 1 995000000 true feat_quiet)

/-- Test context in `ST_SAFE`: the content of `ctx_verify` after a relatching tick. -/
def ctx_safe : fdir_ctx :=
  { st := fdir_state_t.ST_SAFE, dwell_hits := 2, deadline := { tv_sec := 5, tv_nsec := 0 },
    en_line := some false, ef_line := none,
    calls := [power_call.cut, power_call.restart_soft, power_call.cut] }

/-- Test feature vector with a large current rate and a droop field holding
0.04 V, the binary32 number `0.04f = 5368709/2^27`. -/
def feat_boundary : features_t ℚ :=
  { dI_dt := 5, Vout_droop := 5368709 / 134217728, ripple_RMS := 1, efficiency := 9 / 10,
    dEff_dT := 0 }

/-- Test feature vector with a droop of 1 V and a `dI_dt` field holding the
binary32 number `0.8f = 13421773/2^24`. -/
def feat_rule_edge : features_t ℚ :=
  { dI_dt := 13421773 / 16777216, Vout_droop := 1, ripple_RMS := 0, efficiency := 9 / 10,
    dEff_dT := 0 }

/-- Test feature vector with a droop of 1 V and a `dI_dt` field holding the
relatch threshold itself, the binary32 number `10737419/2^24`. -/
def feat_relatch_at : features_t ℚ :=
  { dI_dt := 10737419 / 16777216, Vout_droop := 1, ripple_RMS := 0, efficiency := 9 / 10,
    dEff_dT := 0 }

/-- Test sample number `i` of a ramp: the input current rises by 0.02/19 A per
sample from 0.40 A, at constant voltages and temperature. -/
def ramp_sample (i : Nat) : RawSample ℚ :=
  { vin := 8, iin := 40 / 100 + (i : ℚ) / 950, vout := 5, iout := 1 / 2, temp := 40,
    ripple := 0 }

/-- Test sequence of 20 pushes whose input current rises from 0.40 A to 0.42 A. -/
def ramp_pushes : List (RawSample ℚ) := (List.range 20).map ramp_sample

/-- Test sample with input power 3.2 W and output power 2.9 W. -/
def sample_eff : RawSample ℚ :=
  { vin := 8, iin := 4 / 10, vout := 5, iout := 58 / 100, temp := 40, ripple := 0 }

/-- Test sample with output voltage `v` and nominal other channels. -/
def sample_vout (v : ℚ) : RawSample ℚ :=
  { vin := 8, iin := 4 / 10, vout := v, iout := 1 / 2, temp := 40, ripple := 0 }

/-- Test sequence filling the ring: 40 pushes at 5.02 V, then a window of 20
pushes at 4.96 V, so the mean over the whole ring is 5.00 V. -/
def droop_pushes : List (RawSample ℚ) :=
  List.replicate 40 (sample_vout (502 / 100)) ++ List.replicate 20 (sample_vout (496 / 100))

/-- Test context in `ST_VERIFY`, entered from `ctx_hold` by a tick at the clock
reading `(2, 5000000)`; the verification deadline is `(2, 105000000)`. -/
def ctx_verify_entered : fdir_ctx := fdir_tick ctx_hold (tick_at 2 5000000 false feat_quiet)

/-- Test sample of binary32 numbers with the output voltage `4.96f`. -/
def sample_496 : RawSample Int :=
  { vin := b32_lit 8 1, iin := b32_lit 1 2, vout := b32_lit 496 100, iout := b32_lit 1 2,
    temp := b32_lit 40 1, ripple := 0 }

/-- Feature record of binary32 zeros, the prior content of the output argument. -/
def out_zero : features_t Int :=
  { dI_dt := 0, Vout_droop := 0, ripple_RMS := 0, efficiency := 0, dEff_dT := 0 }

section BufferProofs
variable {α : Type} [LinearOrderedField α]

theorem BUF_MAX_eq : BUF_MAX = 60 := rfl

theorem pushes_snoc (l : List (RawSample α)) (s : RawSample α) :
    pushes (l ++ [s]) = push_sample (pushes l) s := by
  simp [pushes, List.foldl_append]

theorem push_sample_idx (rb : rawbuf_t α) (s : RawSample α) :
    (push_sample rb s).idx = (rb.idx + 1) % BUF_MAX := rfl

theorem push_sample_count (rb : rawbuf_t α) (s : RawSample α) :
    (push_sample rb s).count
      = if rb.count < BUF_MAX then (rb.count + 1) % 65536 else rb.count := rfl

theorem push_sample_slot (rb : rawbuf_t α) (s : RawSample α) (j : Nat) :
    (push_sample rb s).slot j = if j = rb.idx then s else rb.slot j := by
  by_cases h : j = rb.idx
  · subst h
    cases s
    simp [rawbuf_t.slot, push_sample, feats_push_raw]
  · simp [rawbuf_t.slot, push_sample, feats_push_raw, Function.update_noteq h, h]

theorem pushes_idx (l : List (RawSample α)) : (pushes l).idx = l.length % BUF_MAX := by
  induction l using List.reverseRecOn with
  | nil => rfl
  | append_singleton l s ih =>
    rw [pushes_snoc, push_sample_idx, ih, List.length_append, List.length_singleton]
    simp only [BUF_MAX_eq]
    omega

theorem pushes_count (l : List (RawSample α)) : (pushes l).count = min l.length BUF_MAX := by
  induction l using List.reverseRecOn with
  | nil => rfl
  | append_singleton l s ih =>
    rw [pushes_snoc, push_sample_count, ih, List.length_append, List.length_singleton]
    simp only [BUF_MAX_eq]
    split <;> omega

theorem pushes_slot (l : List (RawSample α)) :
    ∀ i, i < l.length → l.length ≤ i + BUF_MAX →
      l[i]? = some ((pushes l).slot (i % BUF_MAX)) := by
  induction l using List.reverseRecOn with
  | nil => intro i hi; simp at hi
  | append_singleton l s ih =>
    intro i hi hrec
    rw [List.length_append, List.length_singleton] at hi hrec
    rw [pushes_snoc, push_sample_slot, pushes_idx]
    simp only [BUF_MAX_eq] at hrec ⊢
    by_cases hlast : i = l.length
    · subst hlast
      simp
    · have hlt : i < l.length := by omega
      have hne : ¬ (i % 60 = l.length % 60) := by omega
      rw [if_neg hne, List.getElem?_append_left hlt]
      have := ih i hlt (by simp only [BUF_MAX_eq]; omega)
      simpa only [BUF_MAX_eq] using this

theorem get_window_ok (rb : rawbuf_t α) (n s0 : Nat) (hn : n ≤ rb.count)
    (hc : rb.count ≤ BUF_MAX) :
    get_window rb n s0 = (true, (rb.idx + BUF_MAX - n) % BUF_MAX) := by
  have hlt : ¬ rb.count < n := by omega
  simp only [get_window, if_neg hlt, to_u16, BUF_MAX_eq] at hc ⊢
  rw [Int.tmod_eq_emod (by omega) (by omega)]
  congr 1
  omega

theorem pushes_count_le (l : List (RawSample α)) : (pushes l).count ≤ BUF_MAX := by
  rw [pushes_count]; exact Nat.min_le_right _ _

theorem feats_compute_not_ready (rb : rawbuf_t α) (out : features_t α)
    (h : rb.count < 20) : feats_compute rb out = (false, out) := by
  have hg : get_window rb 20 0 = (false, 0) := by simp [get_window, h]
  simp [feats_compute, FS_HZ, WIN_MS, hg]

theorem feats_compute_ready (rb : rawbuf_t α) (out : features_t α)
    (h : 20 ≤ rb.count) : (feats_compute rb out).1 = true := by
  have hlt : ¬ rb.count < 20 := by omega
  have hg : (get_window rb 20 0).1 = true := by simp [get_window, hlt]
  simp [feats_compute, FS_HZ, WIN_MS, hg]

/-! ## Claims on the ring buffer -/

/-- C1: after `feats_reset` and the pushes `l = s_0..s_{k-1}`, for every
`n ≤ count` the call `get_window(n)` succeeds, and for every `j < n` the slot
`(start + j) mod BUF_MAX` holds, on all six channels, the sample `s_{k-n+j}`:
the window is the `n` last-written samples in chronological order, also across
the wrap of the storage. -/
theorem window_last_n_chronological (l : List (RawSample α)) (n s0 : Nat)
    (hn : n ≤ (pushes l).count) :
    (get_window (pushes l) n s0).1 = true ∧
    ∀ j, j < n →
      l[l.length - n + j]?
        = some ((pushes l).slot (((get_window (pushes l) n s0).2 + j) % BUF_MAX)) := by
  rw [get_window_ok _ n s0 hn (pushes_count_le l)]
  refine ⟨rfl, ?_⟩
  intro j hj
  rw [pushes_count] at hn
  have hk : n ≤ l.length := le_trans hn (Nat.min_le_left _ _)
  have h60 : n ≤ 60 := le_trans hn (Nat.min_le_right _ _)
  have hslot := pushes_slot l (l.length - n + j) (by omega) (by simp only [BUF_MAX_eq]; omega)
  rw [hslot, pushes_idx]
  simp only [BUF_MAX_eq]
  congr 2
  omega

/-- Witness of C1: 62 pushes into the 60-slot ring, window of 5 samples starting
at slot 57 and wrapping to slots 0 and 1. -/
theorem window_last_n_chronological_witness :
    5 ≤ (pushes pushes62).count ∧
    (get_window (pushes pushes62) 5 0).1 = true ∧
    ∀ j, j < 5 →
      pushes62[pushes62.length - 5 + j]?
        = some ((pushes pushes62).slot (((get_window (pushes pushes62) 5 0).2 + j) % BUF_MAX)) :=
  have h : 5 ≤ (pushes pushes62).count := by
    rw [pushes_count]; simp [pushes62, BUF_MAX_eq]
  ⟨h, window_last_n_chronological pushes62 5 0 h⟩

/-- C2: for every push sequence after `feats_reset`, `count = min(total_pushes,
BUF_MAX)` with `BUF_MAX = (FS_HZ/1000)*(WIN_MS+4) = 60`; each further push adds
one to `count` while it is below the capacity and leaves it at the capacity
afterwards. -/
theorem count_eq_min_pushes_capacity (l : List (RawSample α)) (s : RawSample α) :
    BUF_MAX = (FS_HZ / 1000) * (WIN_MS + 4) ∧ BUF_MAX = 60 ∧
    (pushes l).count = min l.length BUF_MAX ∧
    (pushes (l ++ [s])).count
      = (if (pushes l).count < BUF_MAX then (pushes l).count + 1 else BUF_MAX) := by
  refine ⟨rfl, rfl, pushes_count l, ?_⟩
  rw [pushes_count, pushes_count, List.length_append, List.length_singleton]
  simp only [BUF_MAX_eq]
  split <;> omega

/-- C3: `get_window(n)` returns false and leaves the start index unwritten
whenever `n > count`; `feats_compute` returns false with its output untouched
while fewer than `win = (FS_HZ/1000)*WIN_MS = 20` samples have been pushed since
`feats_reset`, and returns true on every call after at least 20 pushes. -/
theorem insufficient_data_defined_failure :
    (FS_HZ / 1000) * WIN_MS = 20 ∧
    (∀ (rb : rawbuf_t α) (n s0 : Nat), rb.count < n → get_window rb n s0 = (false, s0)) ∧
    (∀ (l : List (RawSample α)) (out : features_t α),
      l.length < 20 → feats_compute (pushes l) out = (false, out)) ∧
    (∀ (l : List (RawSample α)) (out : features_t α),
      20 ≤ l.length → (feats_compute (pushes l) out).1 = true) := by
  refine ⟨rfl, ?_, ?_, ?_⟩
  · intro rb n s0 h
    simp [get_window, h]
  · intro l out h
    apply feats_compute_not_ready
    rw [pushes_count, BUF_MAX_eq]
    omega
  · intro l out h
    apply feats_compute_ready
    rw [pushes_count, BUF_MAX_eq]
    omega

/-- Witness of C3: an empty buffer asked for one sample, `feats_compute` after
3 pushes, and `feats_compute` after 62 pushes. -/
theorem insufficient_data_defined_failure_witness :
    ((feats_reset : rawbuf_t ℚ).count < 1 ∧
      get_window (feats_reset : rawbuf_t ℚ) 1 7 = (false, 7)) ∧
    ((pushes62.take 3).length < 20 ∧
      feats_compute (pushes (pushes62.take 3)) out_prior = (false, out_prior)) ∧
    (20 ≤ pushes62.length ∧ (feats_compute (pushes pushes62) out_prior).1 = true) :=
  have h1 : (feats_reset : rawbuf_t ℚ).count < 1 := by decide
  have h2 : (pushes62.take 3).length < 20 := by decide
  have h3 : 20 ≤ pushes62.length := by decide
  ⟨⟨h1, (@insufficient_data_defined_failure ℚ _).2.1 feats_reset 1 7 h1⟩,
   ⟨h2, (@insufficient_data_defined_failure ℚ _).2.2.1 (pushes62.take 3) out_prior h2⟩,
   ⟨h3, (@insufficient_data_defined_failure ℚ _).2.2.2 pushes62 out_prior h3⟩⟩

end BufferProofs

/-! ## Isolation-forest scoring over the reals -/

section ForestProofs

theorem c_of_le_one (n : ℝ) (h : n ≤ 1) : c_of Real.log n = 0 := by
  simp [c_of, h]

theorem c_of_gt_one (n : ℝ) (h : 1 < n) :
    c_of Real.log n
      = 2 * (Real.log (n - 1) + 5772156649015329 / 10000000000000000) - 2 * (n - 1) / n := by
  simp [c_of, not_le.mpr h]

theorem c_of_lt_of_lt (a b : ℝ) (ha : 1 < a) (hab : a < b) :
    c_of Real.log a < c_of Real.log b := by
  have hb : 1 < b := lt_trans ha hab
  rw [c_of_gt_one a ha, c_of_gt_one b hb]
  have ha1 : 0 < a - 1 := by linarith
  have hb1 : 0 < b - 1 := by linarith
  have ha0 : 0 < a := by linarith
  have hb0 : 0 < b := by linarith
  have hlog : Real.log ((a - 1) / (b - 1)) ≤ (a - 1) / (b - 1) - 1 :=
    Real.log_le_sub_one_of_pos (div_pos ha1 hb1)
  rw [Real.log_div ha1.ne' hb1.ne'] at hlog
  have e1 : (a - 1) / (b - 1) - 1 = -((b - a) / (b - 1)) := by
    field_simp
  rw [e1] at hlog
  have e2 : 2 * (a - 1) / a - 2 * (b - 1) / b = -(2 * ((b - a) / (a * b))) := by
    field_simp; ring
  have hcmp : (b - a) / (a * b) < (b - a) / (b - 1) := by
    apply div_lt_div_of_pos_left (by linarith) hb1
    nlinarith
  linarith

theorem c_of_two : c_of Real.log 2 = 2 * (5772156649015329 / 10000000000000000) - 1 := by
  rw [c_of_gt_one 2 (by norm_num)]
  norm_num

theorem c_of_int_nonneg (n : Int) (hn : 1 ≤ n) : 0 ≤ c_of Real.log (n : ℝ) := by
  rcases eq_or_lt_of_le hn with h | h
  · rw [← h]; simp [c_of]
  · have h2 : (2 : ℝ) ≤ (n : ℝ) := by exact_mod_cast h
    have hpos : 0 < c_of Real.log 2 := by rw [c_of_two]; norm_num
    rcases eq_or_lt_of_le h2 with e | l
    · rw [← e]; exact hpos.le
    · exact (lt_trans hpos (c_of_lt_of_lt 2 n (by norm_num) l)).le

theorem tree_walk_nonneg (m : Model ℝ) (z : List ℝ) :
    ∀ (k : Nat) (node : Int) (steps : Nat), 1025 - steps = k →
      ∀ h, tree_walk Real.log m z node steps = some h → 0 ≤ h := by
  intro k
  induction k using Nat.strong_induction_on with
  | _ k ih =>
    intro node steps hk h hw
    rw [tree_walk] at hw
    split at hw
    · split at hw
      · split at hw
        · rename_i ns0 _
          simp only [Option.some.injEq] at hw
          rw [← hw]
          have hc := c_of_int_nonneg (if ns0 ≤ 0 then 1 else ns0) (by split <;> omega)
          have hs : (0:ℝ) ≤ (steps : ℝ) := Nat.cast_nonneg _
          exact add_nonneg hs hc
        · simp at hw
      · split at hw
        · split at hw
          · simp only [Option.some.injEq] at hw
            rw [← hw]
            exact Nat.cast_nonneg _
          · exact ih (1025 - (steps + 1)) (by omega) _ (steps + 1) rfl h hw
        · simp at hw
    · simp at hw

theorem tree_path_length_nonneg (m : Model ℝ) (z : List ℝ) (t : Int) (h : ℝ)
    (ht : tree_path_length Real.log m t z = some h) : 0 ≤ h := by
  unfold tree_path_length at ht
  split at ht
  · exact tree_walk_nonneg m z _ _ 0 rfl h ht
  · simp at ht

theorem sum_path_lengths_some (m : Model ℝ) (z : List ℝ) (T : Nat)
    (hend : ∀ t, t < T → ∃ h, tree_path_length Real.log m (t : Int) z = some h) :
    ∃ s, sum_path_lengths Real.log m z T = some s ∧ 0 ≤ s := by
  induction T with
  | zero => exact ⟨0, rfl, le_rfl⟩
  | succ T ih =>
    obtain ⟨s, hs, hs0⟩ := ih (fun t ht => hend t (Nat.lt_succ_of_lt ht))
    obtain ⟨h, hh⟩ := hend T (Nat.lt_succ_self T)
    refine ⟨s + h, ?_, add_nonneg hs0 (tree_path_length_nonneg m z _ h hh)⟩
    simp [sum_path_lengths, hs, hh]

theorem score_divisor_pos (cmax : ℝ) : 0 < score_divisor cmax := by
  unfold score_divisor
  split
  · rename_i h; exact lt_trans (by norm_num) h
  · exact one_pos

theorem rd_some_of_lt {β : Type} (a : List β) (i : Nat) (h : i < a.length) :
    ∃ v, rd a (i : Int) = some v := by
  refine ⟨a[i], ?_⟩
  simp [rd, List.getElem?_eq_getElem h]

theorem scaler_loop_some (m : Model ℝ) (h1 : m.scaler_mean_q15.length = NUM_FEATURES)
    (h2 : m.scaler_scale_q15.length = NUM_FEATURES) :
    ∀ k, k ≤ NUM_FEATURES → ∃ l, scaler_loop m k = some l := by
  intro k
  induction k with
  | zero => intro _; exact ⟨[], rfl⟩
  | succ k ih =>
    intro hk
    obtain ⟨l, hl⟩ := ih (Nat.le_of_succ_le hk)
    obtain ⟨mq, hmq⟩ := rd_some_of_lt m.scaler_mean_q15 k (by omega)
    obtain ⟨sq, hsq⟩ := rd_some_of_lt m.scaler_scale_q15 k (by omega)
    simp [scaler_loop, hl, scaler_entry, hmq, hsq]

theorem make_z_some (m : Model ℝ) (f : features_t ℝ)
    (h1 : m.scaler_mean_q15.length = NUM_FEATURES)
    (h2 : m.scaler_scale_q15.length = NUM_FEATURES) : ∃ z, make_z m f = some z := by
  obtain ⟨l, hl⟩ := scaler_loop_some m h1 h2 NUM_FEATURES le_rfl
  simp [make_z, scaler_get, hl]

theorem iforest_score_of_avg (m : Model ℝ) (f : features_t ℝ) (z : List ℝ) (Eh : ℝ)
    (hz : make_z m f = some z) (hE : avg_path_length Real.log m z = some Eh) :
    iforest_score Real.log Real.rpow m f
      = some ((2 : ℝ) ^ (-Eh / score_divisor m.IFOREST_C_MAXSAMPLES)) := by
  simp [iforest_score, hz, hE]

theorem c_of_continuousAt_of_ne (n : ℝ) (hn : n ≠ 1) : ContinuousAt (c_of Real.log) n := by
  rcases lt_or_gt_of_ne hn with h | h
  · have heq : (fun _ : ℝ => (0 : ℝ)) =ᶠ[nhds n] c_of Real.log := by
      filter_upwards [Iio_mem_nhds h] with x hx
      exact (c_of_le_one x (le_of_lt hx)).symm
    exact continuousAt_const.congr heq
  · have heq : (fun x : ℝ => 2 * (Real.log (x - 1) + 5772156649015329 / 10000000000000000)
        - 2 * (x - 1) / x) =ᶠ[nhds n] c_of Real.log := by
      filter_upwards [Ioi_mem_nhds h] with x hx
      exact (c_of_gt_one x hx).symm
    refine ContinuousAt.congr ?_ heq
    have h1 : n - 1 ≠ 0 := by linarith
    have h0 : n ≠ 0 := by linarith
    have hlog : ContinuousAt (fun x : ℝ => Real.log (x - 1)) n :=
      ContinuousAt.log (continuousAt_id.sub continuousAt_const) h1
    have hdiv : ContinuousAt (fun x : ℝ => 2 * (x - 1) / x) n :=
      (continuousAt_const.mul (continuousAt_id.sub continuousAt_const)).div continuousAt_id h0
    exact (continuousAt_const.mul (hlog.add continuousAt_const)).sub hdiv

theorem c_of_not_continuousAt_one : ¬ ContinuousAt (c_of Real.log) 1 := by
  intro hc
  rw [Metric.continuousAt_iff] at hc
  obtain ⟨δ, hδ, H⟩ := hc 1 one_pos
  have htpos : 0 < min (δ / 2) (Real.exp (-2)) := lt_min (by linarith) (Real.exp_pos _)
  have htδ : min (δ / 2) (Real.exp (-2)) < δ := lt_of_le_of_lt (min_le_left _ _) (by linarith)
  have hte : min (δ / 2) (Real.exp (-2)) ≤ Real.exp (-2) := min_le_right _ _
  generalize min (δ / 2) (Real.exp (-2)) = t at htpos htδ hte
  have hd : dist (1 + t) 1 < δ := by
    rw [Real.dist_eq]
    have e : 1 + t - 1 = t := by ring
    rw [e, abs_of_pos htpos]
    exact htδ
  have hx := H hd
  rw [c_of_le_one 1 le_rfl, Real.dist_eq, sub_zero, c_of_gt_one (1 + t) (by linarith)] at hx
  have hlog : Real.log t ≤ -2 := by
    have := Real.log_le_log htpos hte
    rwa [Real.log_exp] at this
  have e : 1 + t - 1 = t := by ring
  rw [e] at hx
  have hfrac : 0 ≤ 2 * t / (1 + t) := by positivity
  have := (abs_lt.mp hx).1
  linarith

end ForestProofs

section ForestClaims

/-- C4: for every feature vector and every model with at least one tree, scaler
arrays of the declared length `NUM_FEATURES`, and traversals that end (at a leaf
or at the depth cap), `iforest_score` returns a value in `(0, 1]` over the reals:
`c_of(n) >= 0` for every integer `n >= 1`, every per-tree path length is `>= 0`,
and the normalising divisor is positive. -/
theorem iforest_score_in_unit_interval (m : Model ℝ) (f : features_t ℝ)
    (htrees : 1 ≤ m.NUM_TREES)
    (hmean : m.scaler_mean_q15.length = NUM_FEATURES)
    (hscale : m.scaler_scale_q15.length = NUM_FEATURES)
    (hend : ∀ z, make_z m f = some z → ∀ t, t < m.NUM_TREES →
      ∃ h, tree_path_length Real.log m (t : Int) z = some h) :
    (∀ n : Int, 1 ≤ n → 0 ≤ c_of Real.log (n : ℝ)) ∧
    (∀ z t h, tree_path_length Real.log m t z = some h → 0 ≤ h) ∧
    0 < score_divisor m.IFOREST_C_MAXSAMPLES ∧
    ∃ s, iforest_score Real.log Real.rpow m f = some s ∧ 0 < s ∧ s ≤ 1 := by
  refine ⟨c_of_int_nonneg, fun z t h hh => tree_path_length_nonneg m z t h hh,
    score_divisor_pos _, ?_⟩
  obtain ⟨z, hz⟩ := make_z_some m f hmean hscale
  obtain ⟨sum_h, hs, hs0⟩ := sum_path_lengths_some m z m.NUM_TREES (hend z hz)
  have hE : avg_path_length Real.log m z = some (sum_h / (m.NUM_TREES : ℝ)) := by
    simp [avg_path_length, hs]
  have hT : (0 : ℝ) < (m.NUM_TREES : ℝ) := by exact_mod_cast htrees
  have hEh : 0 ≤ sum_h / (m.NUM_TREES : ℝ) := div_nonneg hs0 hT.le
  refine ⟨_, iforest_score_of_avg m f z _ hz hE, Real.rpow_pos_of_pos two_pos _, ?_⟩
  apply Real.rpow_le_one_of_one_le_of_nonpos one_le_two
  rw [neg_div]
  exact neg_nonpos.mpr (div_nonneg hEh (score_divisor_pos _).le)

theorem model_small_z_high : make_z (model_small ℝ) (feat_high ℝ) = some [1, 0, 0, 0, 0] := by
  simp [make_z, scaler_get, scaler_loop, scaler_entry, rd, model_small, feat_high, q15_to_real]


theorem model_small_z_low : make_z (model_small ℝ) (feat_low ℝ) = some [-1, 0, 0, 0, 0] := by
  simp [make_z, scaler_get, scaler_loop, scaler_entry, rd, model_small, feat_low, q15_to_real]

theorem model_small_tree0_high :
    tree_path_length Real.log (model_small ℝ) 0 [1, 0, 0, 0, 0] = some 1 := by
  simp [tree_path_length, rd, model_small]
  rw [tree_walk]
  simp [rd, q15_to_real]
  norm_num
  rw [tree_walk]
  simp [rd, c_of]

theorem model_small_tree0_low :
    tree_path_length Real.log (model_small ℝ) 0 [-1, 0, 0, 0, 0]
      = some (1 + c_of Real.log 2) := by
  simp [tree_path_length, rd, model_small]
  rw [tree_walk]
  simp [rd, q15_to_real]
  rw [tree_walk]
  simp [rd]

theorem model_small_tree1 (z : List ℝ) :
    tree_path_length Real.log (model_small ℝ) 1 z = some 0 := by
  simp [tree_path_length, rd, model_small]
  rw [tree_walk]
  simp [rd, c_of]


theorem model_small_trees (t : Nat) (ht : t < (model_small ℝ).NUM_TREES) : t = 0 ∨ t = 1 := by
  have h2 : (model_small ℝ).NUM_TREES = 2 := rfl
  omega

theorem model_small_avg_high :
    avg_path_length Real.log (model_small ℝ) [1, 0, 0, 0, 0] = some (1 / 2) := by
  have h2 : (model_small ℝ).NUM_TREES = 2 := rfl
  have h0 := model_small_tree0_high
  have h1 := model_small_tree1 [1, 0, 0, 0, 0]
  simp only [avg_path_length, h2, sum_path_lengths, Nat.cast_zero, Nat.cast_one, h0, h1]
  norm_num

theorem model_small_avg_low :
    avg_path_length Real.log (model_small ℝ) [-1, 0, 0, 0, 0]
      = some (5772156649015329 / 10000000000000000) := by
  have h2 : (model_small ℝ).NUM_TREES = 2 := rfl
  have h0 := model_small_tree0_low
  have h1 := model_small_tree1 [-1, 0, 0, 0, 0]
  simp only [avg_path_length, h2, sum_path_lengths, Nat.cast_zero, Nat.cast_one, h0, h1, c_of_two]
  norm_num

/-- Witness of C4: the two-tree test model and a feature vector that reaches the
one-sample leaf of tree 0 and the root leaf of tree 1. -/
theorem iforest_score_in_unit_interval_witness :
    (1 ≤ (model_small ℝ).NUM_TREES ∧
      (model_small ℝ).scaler_mean_q15.length = NUM_FEATURES ∧
      (model_small ℝ).scaler_scale_q15.length = NUM_FEATURES ∧
      ∀ z, make_z (model_small ℝ) (feat_high ℝ) = some z →
        ∀ t, t < (model_small ℝ).NUM_TREES →
          ∃ h, tree_path_length Real.log (model_small ℝ) (t : Int) z = some h) ∧
    ∃ s, iforest_score Real.log Real.rpow (model_small ℝ) (feat_high ℝ) = some s ∧
      0 < s ∧ s ≤ 1 :=
  have h1 : 1 ≤ (model_small ℝ).NUM_TREES := by decide
  have h2 : (model_small ℝ).scaler_mean_q15.length = NUM_FEATURES := rfl
  have h3 : (model_small ℝ).scaler_scale_q15.length = NUM_FEATURES := rfl
  have h4 : ∀ z, make_z (model_small ℝ) (feat_high ℝ) = some z →
      ∀ t, t < (model_small ℝ).NUM_TREES →
        ∃ h, tree_path_length Real.log (model_small ℝ) (t : Int) z = some h := by
    intro z hz t ht
    rw [model_small_z_high] at hz
    cases hz
    rcases model_small_trees t ht with e | e
    · subst e; exact ⟨1, by simpa using model_small_tree0_high⟩
    · subst e; exact ⟨0, by simpa using model_small_tree1 [1, 0, 0, 0, 0]⟩
  ⟨⟨h1, h2, h3, h4⟩,
    (iforest_score_in_unit_interval (model_small ℝ) (feat_high ℝ) h1 h2 h3 h4).2.2.2⟩

/-- C5: for one normalisation constant, an evaluation whose average path length
`E1` is smaller than the average path length `E2` of another evaluation gets the
strictly greater score: `iforest_score` returns `2^(-E1/cmax)` and `2^(-E2/cmax)`
(with `cmax` replaced by 1 when it does not exceed `1e-9`), and
`2^(-E2/cmax) < 2^(-E1/cmax)`. -/
theorem score_increases_as_avg_path_decreases (m1 m2 : Model ℝ) (f1 f2 : features_t ℝ)
    (z1 z2 : List ℝ) (E1 E2 : ℝ)
    (hc : m1.IFOREST_C_MAXSAMPLES = m2.IFOREST_C_MAXSAMPLES)
    (hz1 : make_z m1 f1 = some z1) (hz2 : make_z m2 f2 = some z2)
    (hE1 : avg_path_length Real.log m1 z1 = some E1)
    (hE2 : avg_path_length Real.log m2 z2 = some E2)
    (hlt : E1 < E2) :
    iforest_score Real.log Real.rpow m1 f1
      = some ((2 : ℝ) ^ (-E1 / score_divisor m1.IFOREST_C_MAXSAMPLES)) ∧
    iforest_score Real.log Real.rpow m2 f2
      = some ((2 : ℝ) ^ (-E2 / score_divisor m1.IFOREST_C_MAXSAMPLES)) ∧
    (2 : ℝ) ^ (-E2 / score_divisor m1.IFOREST_C_MAXSAMPLES)
      < (2 : ℝ) ^ (-E1 / score_divisor m1.IFOREST_C_MAXSAMPLES) := by
  refine ⟨iforest_score_of_avg m1 f1 z1 E1 hz1 hE1, ?_, ?_⟩
  · rw [hc]; exact iforest_score_of_avg m2 f2 z2 E2 hz2 hE2
  · apply Real.rpow_lt_rpow_of_exponent_lt one_lt_two
    apply div_lt_div_of_pos_right _ (score_divisor_pos _)
    linarith

/-- Witness of C5: on the test model the vector reaching the one-sample leaf has
average path length 1/2, the vector reaching the two-sample leaf has the larger
average 0.5772..., and so the smaller score. -/
theorem score_increases_as_avg_path_decreases_witness :
    ((1 : ℝ) / 2 < 5772156649015329 / 10000000000000000) ∧
    (2 : ℝ) ^ (-(5772156649015329 / 10000000000000000 : ℝ)
        / score_divisor (model_small ℝ).IFOREST_C_MAXSAMPLES)
      < (2 : ℝ) ^ (-(1 / 2 : ℝ) / score_divisor (model_small ℝ).IFOREST_C_MAXSAMPLES) :=
  have hlt : (1 : ℝ) / 2 < 5772156649015329 / 10000000000000000 := by norm_num
  ⟨hlt, (score_increases_as_avg_path_decreases (model_small ℝ) (model_small ℝ)
    (feat_high ℝ) (feat_low ℝ) [1, 0, 0, 0, 0] [-1, 0, 0, 0, 0] _ _ rfl
    model_small_z_high model_small_z_low model_small_avg_high model_small_avg_low hlt).2.2⟩

/-- C6: `c_of(n)` is 0 for every `n <= 1`, equals
`2*(ln(n-1) + gamma) - 2*(n-1)/n` for `n > 1`, and is strictly increasing there:
`c_of(n1) < c_of(n2)` for all real `1 < n1 < n2`. -/
theorem c_of_zero_then_strictly_increasing :
    (∀ n : ℝ, n ≤ 1 → c_of Real.log n = 0) ∧
    (∀ n : ℝ, 1 < n → c_of Real.log n
      = 2 * (Real.log (n - 1) + 5772156649015329 / 10000000000000000) - 2 * (n - 1) / n) ∧
    (∀ n1 n2 : ℝ, 1 < n1 → n1 < n2 → c_of Real.log n1 < c_of Real.log n2) :=
  ⟨c_of_le_one, c_of_gt_one, c_of_lt_of_lt⟩

/-- Witness of C6: `c_of(1/2) = 0` and `c_of(2) < c_of(3)`. -/
theorem c_of_zero_then_strictly_increasing_witness :
    ((1 / 2 : ℝ) ≤ 1 ∧ c_of Real.log (1 / 2) = 0) ∧
    ((1 : ℝ) < 2 ∧ (2 : ℝ) < 3 ∧ c_of Real.log 2 < c_of Real.log 3) :=
  have h1 : (1 / 2 : ℝ) ≤ 1 := by norm_num
  have h2 : (1 : ℝ) < 2 := by norm_num
  have h3 : (2 : ℝ) < 3 := by norm_num
  ⟨⟨h1, c_of_zero_then_strictly_increasing.1 (1 / 2) h1⟩,
   ⟨h2, h3, c_of_zero_then_strictly_increasing.2.2 2 3 h2 h3⟩⟩

/-- C7 as stated fails: `c_of` is not continuous at the junction `n = 1`
(`c_of(1) = 0`, while `c_of(1 + t)` is below `-2` for every `0 < t <= exp(-2)`). -/
theorem c_of_discontinuous_at_junction : ¬ ContinuousAt (c_of Real.log) 1 :=
  c_of_not_continuousAt_one

/-- C7, amended: `c_of` is continuous at every real `n` other than the junction
`n = 1`, and at the junction it is continuous from the left. -/
theorem c_of_continuous_off_junction :
    (∀ n : ℝ, n ≠ 1 → ContinuousAt (c_of Real.log) n) ∧
    ContinuousWithinAt (c_of Real.log) (Set.Iic 1) 1 := by
  refine ⟨c_of_continuousAt_of_ne, ?_⟩
  have h0 : ContinuousWithinAt (fun _ : ℝ => (0 : ℝ)) (Set.Iic 1) 1 := continuousWithinAt_const
  exact h0.congr (fun x hx => c_of_le_one x hx) (c_of_le_one 1 le_rfl)

/-- Witness of the amended C7: continuity at `n = 2`. -/
theorem c_of_continuous_off_junction_witness :
    (2 : ℝ) ≠ 1 ∧ ContinuousAt (c_of Real.log) 2 :=
  have h : (2 : ℝ) ≠ 1 := by norm_num
  ⟨h, c_of_continuous_off_junction.1 2 h⟩

end ForestClaims

/-! ## Binary32 rounding and the values of the constants -/

section Binary32Rounding

theorem round_nat_nearest (p q : Nat) (hq : 0 < q) :
    2 * (round_nat p q * q) ≤ 2 * p + q ∧ 2 * p ≤ 2 * (round_nat p q * q) + q := by
  have h1 := Nat.div_add_mod p q
  have h2 := Nat.mod_lt p hq
  have e1 : (p / q + 1) * q = q * (p / q) + q := by ring
  have e2 : p / q * q = q * (p / q) := by ring
  unfold round_nat
  simp only
  split_ifs <;> first | (rw [e1]; omega) | (rw [e2]; omega)

theorem round_nat_even_on_tie (p q : Nat) (htie : 2 * (p % q) = q) :
    round_nat p q % 2 = 0 := by
  unfold round_nat
  simp only
  have h1 : ¬ (2 * (p % q) < q) := by omega
  have h2 : ¬ (q < 2 * (p % q)) := by omega
  rw [if_neg h1, if_neg h2]
  split_ifs <;> omega

theorem round_nat_exact (n q : Nat) (hq : 0 < q) : round_nat (n * q) q = n := by
  unfold round_nat
  simp only
  rw [Nat.mul_mod_left, Nat.mul_div_cancel _ hq]
  simp [hq]

theorem shift_count_spec (fuel n : Nat) (h : n < 16777216 * 2 ^ fuel) :
    n / 2 ^ shift_count fuel n < 16777216 ∧
    (shift_count fuel n ≠ 0 → 8388608 ≤ n / 2 ^ shift_count fuel n) := by
  induction fuel generalizing n with
  | zero =>
    simp only [shift_count]
    simp at h ⊢
    exact h
  | succ fuel ih =>
    unfold shift_count
    split_ifs with hlt
    · simp
      exact hlt
    · have h2 : n / 2 < 16777216 * 2 ^ fuel := by
        rw [pow_succ] at h
        omega
      obtain ⟨ih1, ih2⟩ := ih (n / 2) h2
      have e : n / 2 ^ (shift_count fuel (n / 2) + 1) = n / 2 / 2 ^ shift_count fuel (n / 2) := by
        rw [pow_succ, Nat.mul_comm, Nat.div_div_eq_div_mul]
      rw [e]
      refine ⟨ih1, fun _ => ?_⟩
      by_cases hz : shift_count fuel (n / 2) = 0
      · rw [hz] at ih1 ⊢
        simp at ih1 ⊢
        omega
      · exact ih2 hz

theorem round_nat_cases (p q : Nat) : round_nat p q = p / q ∨ round_nat p q = p / q + 1 := by
  unfold round_nat
  simp only
  split_ifs <;> simp

/-- The result of `b32_round_nat` is a binary32 number nearest to `p/q`: it is
`n * 2^k` units with a significand `n <= 2^24`, where `k = 0` or `2^23 <= n`
(so `2^k` units is the spacing of the binary32 numbers around `p/q`), and it
differs from `p/q` by at most half that spacing. -/
theorem b32_round_nat_nearest (p q : Nat) (hq : 0 < q) (h : p / q < 16777216 * 2 ^ 300) :
    ∃ n k : Nat, b32_round_nat p q = n * 2 ^ k ∧ n ≤ 16777216 ∧ (k ≠ 0 → 8388608 ≤ n) ∧
      2 * (b32_round_nat p q * q) ≤ 2 * p + 2 ^ k * q ∧
      2 * p ≤ 2 * (b32_round_nat p q * q) + 2 ^ k * q := by
  obtain ⟨hs1, hs2⟩ := shift_count_spec 300 (p / q) h
  have hQ : 0 < q * 2 ^ shift_count 300 (p / q) := Nat.mul_pos hq (pow_pos (by decide) _)
  have hdiv : p / (q * 2 ^ shift_count 300 (p / q)) = p / q / 2 ^ shift_count 300 (p / q) := by
    rw [Nat.div_div_eq_div_mul]
  obtain ⟨hn1, hn2⟩ := round_nat_nearest p (q * 2 ^ shift_count 300 (p / q)) hQ
  have hc := round_nat_cases p (q * 2 ^ shift_count 300 (p / q))
  rw [hdiv] at hc
  refine ⟨round_nat p (q * 2 ^ shift_count 300 (p / q)), shift_count 300 (p / q), rfl, ?_, ?_,
    ?_, ?_⟩
  · rcases hc with hc | hc <;> omega
  · intro hk
    have := hs2 hk
    rcases hc with hc | hc <;> omega
  · have e : b32_round_nat p q * q
        = round_nat p (q * 2 ^ shift_count 300 (p / q)) * (q * 2 ^ shift_count 300 (p / q)) := by
      unfold b32_round_nat
      simp only
      ring
    rw [e, Nat.mul_comm (2 ^ shift_count 300 (p / q)) q]
    exact hn1
  · have e : b32_round_nat p q * q
        = round_nat p (q * 2 ^ shift_count 300 (p / q)) * (q * 2 ^ shift_count 300 (p / q)) := by
      unfold b32_round_nat
      simp only
      ring
    rw [e, Nat.mul_comm (2 ^ shift_count 300 (p / q)) q]
    exact hn2

end Binary32Rounding

section ThresholdValues
variable {α : Type} [LinearOrderedField α]

set_option maxRecDepth 100000

theorem THR_DIDT_A_PER_MS_b32_eq :
    THR_DIDT_A_PER_MS_b32 = 570899085589443125446775974364163240347303936 := by decide

theorem THR_DROOP_V_b32_eq :
    THR_DROOP_V_b32 = 28544953216089759644406100395162513793089536 := by decide

theorem b32_lit_4_100 : b32_lit 4 100 = 28544953216089759644406100395162513793089536 := by
  decide

theorem relatch_didt_b32_eq :
    b32_mul THR_DIDT_A_PER_MS_b32 (b32_lit 8 10)
      = 456719293992732019427805539244426149660459008 := by decide

theorem relatch_droop_b32_eq :
    b32_mul THR_DROOP_V_b32 (b32_lit 8 10)
      = 22835964167945402657423927800698483370885120 := by decide

theorem THR_DIDT_A_PER_MS_eq : THR_DIDT_A_PER_MS α = 13421773 / 16777216 := by
  rw [THR_DIDT_A_PER_MS, THR_DIDT_A_PER_MS_b32_eq, b32_val, b32_one]
  norm_num

theorem THR_DROOP_V_eq : THR_DROOP_V α = 5368709 / 134217728 := by
  rw [THR_DROOP_V, THR_DROOP_V_b32_eq, b32_val, b32_one]
  norm_num

theorem b32_val_lit_4_100 : b32_val α (b32_lit 4 100) = 5368709 / 134217728 := by
  rw [b32_lit_4_100, b32_val, b32_one]
  norm_num

theorem relatch_didt_eq :
    b32_val α (b32_mul THR_DIDT_A_PER_MS_b32 (b32_lit 8 10)) = 10737419 / 16777216 := by
  rw [relatch_didt_b32_eq, b32_val, b32_one]
  norm_num

theorem relatch_droop_eq :
    b32_val α (b32_mul THR_DROOP_V_b32 (b32_lit 8 10)) = 8589935 / 268435456 := by
  rw [relatch_droop_b32_eq, b32_val, b32_one]
  norm_num

end ThresholdValues

/-! ## FDIR state machine -/

section FdirProofs
variable {α : Type} [LinearOrderedField α]

open fdir_state_t

theorem set_deadline_ms_spec (now : timespec) (ms : Int) (hn : now.normalised) (hms : 0 ≤ ms) :
    (set_deadline_ms now ms).normalised ∧
    (set_deadline_ms now ms).ns = now.ns + ms * 1000000 := by
  obtain ⟨h0, h1⟩ := hn
  have hm0 : 0 ≤ ms % 1000 := Int.emod_nonneg _ (by norm_num)
  simp only [set_deadline_ms, timespec.normalised, timespec.ns]
  rw [Int.tmod_eq_emod hms (by norm_num), Int.tdiv_eq_ediv hms (by norm_num),
    Int.tmod_eq_emod (by omega) (by norm_num), Int.tdiv_eq_ediv (by omega) (by norm_num)]
  omega

theorem deadline_done_iff (now d : timespec) (hn : now.normalised) (hd : d.normalised) :
    deadline_done now d = true ↔ d.ns ≤ now.ns := by
  obtain ⟨h0, h1⟩ := hn
  obtain ⟨h2, h3⟩ := hd
  simp only [deadline_done, timespec.ns, Bool.or_eq_true, Bool.and_eq_true, decide_eq_true_eq]
  omega

theorem fdir_run_snoc (c : fdir_ctx) (ts : List (tick α)) (t : tick α) :
    fdir_run c (ts ++ [t]) = fdir_tick (fdir_run c ts) t := by
  simp [fdir_run, List.foldl_append]

theorem normal_enter_hold (c0 : fdir_ctx) (d0 t0 : timespec) (a0 : Bool) (f0 : features_t α)
    (s0 : α) (hN : c0.st = ST_NORMAL) (hH : (fdir_step c0 d0 t0 a0 f0 s0).st = ST_HOLD) :
    (fdir_step c0 d0 t0 a0 f0 s0).deadline = set_deadline_ms t0 HOLDOFF_MS := by
  unfold fdir_step at hH ⊢
  rw [hN] at hH ⊢
  simp only at hH ⊢
  split at hH
  · split at hH
    · rename_i h1 h2
      simp [h1, h2]
    · simp [hN] at hH
  · simp [hN] at hH

end FdirProofs

section FdirClaims
variable {α : Type} [LinearOrderedField α]

open fdir_state_t

/-- C8: from `ST_NORMAL` with `dwell_hits = 0`, `DWELL_HITS - 1` consecutive
anomalous ticks followed by a non-anomalous tick make no actuator call and end in
`ST_NORMAL` with the counter at 0; `DWELL_HITS` consecutive anomalous ticks make
exactly one call, `power_cut`, on the last of them, and end in `ST_HOLD` with the
deadline armed `HOLDOFF_MS` after that tick's clock reading. -/
theorem dwell_logic (c : fdir_ctx) (ts : List (tick α)) (t : tick α)
    (hst : c.st = ST_NORMAL) (hd : c.dwell_hits = 0)
    (hlen : (ts.length : Int) = DWELL_HITS - 1) (hall : ∀ x ∈ ts, x.anomaly = true) :
    (fdir_run c ts).st = ST_NORMAL ∧ (fdir_run c ts).calls = c.calls ∧
    (t.anomaly = false →
      (fdir_run c (ts ++ [t])).st = ST_NORMAL ∧ (fdir_run c (ts ++ [t])).dwell_hits = 0 ∧
      (fdir_run c (ts ++ [t])).calls = c.calls ∧
      (fdir_run c (ts ++ [t])).en_line = c.en_line) ∧
    (t.anomaly = true →
      (fdir_run c (ts ++ [t])).st = ST_HOLD ∧
      (fdir_run c (ts ++ [t])).calls = c.calls ++ [power_call.cut] ∧
      (fdir_run c (ts ++ [t])).en_line = gpio_set c.en_line 0 ∧
      (fdir_run c (ts ++ [t])).deadline = set_deadline_ms t.now_arm HOLDOFF_MS) := by
  have h1 : ts.length = 1 := by
    have : (ts.length : Int) = 1 := by rw [hlen]; rfl
    exact_mod_cast this
  obtain ⟨a, rfl⟩ := List.length_eq_one.mp h1
  have ha : a.anomaly = true := hall a (List.mem_singleton_self a)
  refine ⟨?_, ?_, ?_, ?_⟩
  · simp [fdir_run, fdir_tick, fdir_step, hst, hd, ha]
  · simp [fdir_run, fdir_tick, fdir_step, hst, hd, ha]
  · intro hf
    simp [fdir_run, fdir_tick, fdir_step, hst, hd, ha, hf]
  · intro ht
    simp [fdir_run, fdir_tick, fdir_step, hst, hd, ha, ht, power_cut]


/-- Witness of C8: the powered-up initial context and two anomalous ticks 1 ms
apart. -/
theorem dwell_logic_witness :
    (ctx_powered.st = ST_NORMAL ∧ ctx_powered.dwell_hits = 0 ∧
      (([tick_at 1 0 true feat_quiet].length : Int) = DWELL_HITS - 1) ∧
      (∀ x ∈ [tick_at 1 0 true feat_quiet], x.anomaly = true)) ∧
    ((fdir_run ctx_powered [tick_at 1 0 true feat_quiet, tick_at 1 1000000 true feat_quiet]).st
        = ST_HOLD ∧
      (fdir_run ctx_powered [tick_at 1 0 true feat_quiet, tick_at 1 1000000 true feat_quiet]).calls
        = [power_call.cut] ∧
      (fdir_run ctx_powered [tick_at 1 0 true feat_quiet, tick_at 1 1000000 true feat_quiet]).en_line
        = some false ∧
      (fdir_run ctx_powered
          [tick_at 1 0 true feat_quiet, tick_at 1 1000000 true feat_quiet]).deadline
        = { tv_sec := 1, tv_nsec := 11000000 }) :=
  have h1 : ctx_powered.st = ST_NORMAL := by decide
  have h2 : ctx_powered.dwell_hits = 0 := by decide
  have h3 : (([tick_at 1 0 true feat_quiet].length : Int) = DWELL_HITS - 1) := by decide
  have h4 : ∀ x ∈ [tick_at 1 0 true feat_quiet], x.anomaly = true := by
    intro x hx
    rw [List.mem_singleton.mp hx]
    rfl
  ⟨⟨h1, h2, h3, h4⟩,
    (dwell_logic ctx_powered [tick_at 1 0 true feat_quiet]
      (tick_at 1 1000000 true feat_quiet) h1 h2 h3 h4).2.2.2 rfl⟩

/-- C9: if `ST_HOLD` was entered from `ST_NORMAL` on a tick whose arming clock
reading was `t0`, then every sequence of ticks whose readings are earlier than
`t0 + HOLDOFF_MS` leaves the whole context unchanged (state `ST_HOLD`, no
restart), whatever the verdicts, features and scores; a tick moves to `ST_VERIFY`
if and only if its reading is at or after `t0 + HOLDOFF_MS`, and it then calls
`power_restart_soft` once and arms the deadline `VERIFY_MS` after its reading. -/
theorem hold_lasts_until_holdoff (c0 c : fdir_ctx) (d0 t0 : timespec) (a0 : Bool)
    (f0 : features_t α) (s0 : α)
    (hN : c0.st = ST_NORMAL) (hc : fdir_step c0 d0 t0 a0 f0 s0 = c) (hH : c.st = ST_HOLD)
    (ht0 : t0.normalised) :
    HOLDOFF_MS = 10 ∧
    (∀ ts : List (tick α),
      (∀ t ∈ ts, t.now_done.normalised ∧ t.now_done.ns < t0.ns + HOLDOFF_MS * 1000000) →
      fdir_run c ts = c) ∧
    (∀ t : tick α, t.now_done.normalised →
      ((fdir_tick c t).st = ST_VERIFY ↔ t0.ns + HOLDOFF_MS * 1000000 ≤ t.now_done.ns) ∧
      ((fdir_tick c t).st = ST_VERIFY →
        (fdir_tick c t).calls = c.calls ++ [power_call.restart_soft] ∧
        (fdir_tick c t).en_line = gpio_set c.en_line 1 ∧
        (fdir_tick c t).deadline = set_deadline_ms t.now_arm VERIFY_MS)) := by
  have hdl : c.deadline = set_deadline_ms t0 HOLDOFF_MS := by
    rw [← hc] at hH ⊢
    exact normal_enter_hold c0 d0 t0 a0 f0 s0 hN hH
  obtain ⟨hdn, hdns⟩ := set_deadline_ms_spec t0 HOLDOFF_MS ht0 (by decide)
  rw [← hdl] at hdn hdns
  have hstep : ∀ t : tick α, t.now_done.normalised →
      (deadline_done t.now_done c.deadline = true ↔
        t0.ns + HOLDOFF_MS * 1000000 ≤ t.now_done.ns) := by
    intro t ht
    rw [deadline_done_iff _ _ ht hdn, hdns]
  refine ⟨rfl, ?_, ?_⟩
  · intro ts
    induction ts using List.reverseRecOn with
    | nil => intro _; rfl
    | append_singleton ts t ih =>
      intro hall
      rw [fdir_run_snoc, ih (fun x hx => hall x (List.mem_append_left _ hx))]
      obtain ⟨htn, hlt⟩ := hall t (List.mem_append_right _ (List.mem_singleton_self t))
      have hnd : ¬ deadline_done t.now_done c.deadline = true := by
        rw [hstep t htn]; omega
      simp [fdir_tick, fdir_step, hH, hnd]
  · intro t ht
    by_cases hd : deadline_done t.now_done c.deadline = true
    · have hge := (hstep t ht).mp hd
      simp [fdir_tick, fdir_step, hH, hd, hge, power_restart_soft]
    · have hlt : ¬ (t0.ns + HOLDOFF_MS * 1000000 ≤ t.now_done.ns) := fun h =>
        hd ((hstep t ht).mpr h)
      simp [fdir_tick, fdir_step, hH, hd, hlt]

/-- C10: in `ST_VERIFY`, a tick whose feature vector satisfies the relatch
condition of the code, `dI_dt > THR_DIDT_A_PER_MS*0.8f` and
`Vout_droop > THR_DROOP_V*0.8f` (the two products are binary32 numbers, of value
`10737419/2^24` and `8589935/2^28`), calls `power_cut` once, which drives low
every enable line that is open, and moves to `ST_SAFE`, whatever `deadline_done`
would return at that tick: the resulting context is the same at every clock
reading. -/
theorem verify_relatch_forces_safe (c : fdir_ctx) (now_done now_arm : timespec)
    (anomaly : Bool) (f : features_t α) (score : α)
    (hV : c.st = ST_VERIFY)
    (hrel : f.dI_dt > b32_val α (b32_mul THR_DIDT_A_PER_MS_b32 (b32_lit 8 10)) ∧
      f.Vout_droop > b32_val α (b32_mul THR_DROOP_V_b32 (b32_lit 8 10))) :
    b32_val α (b32_mul THR_DIDT_A_PER_MS_b32 (b32_lit 8 10)) = 10737419 / 16777216 ∧
    b32_val α (b32_mul THR_DROOP_V_b32 (b32_lit 8 10)) = 8589935 / 268435456 ∧
    (fdir_step c now_done now_arm anomaly f score).st = ST_SAFE ∧
    (fdir_step c now_done now_arm anomaly f score).calls = c.calls ++ [power_call.cut] ∧
    (fdir_step c now_done now_arm anomaly f score).en_line = gpio_set c.en_line 0 ∧
    (fdir_step c now_done now_arm anomaly f score).ef_line = gpio_set c.ef_line 0 ∧
    (∀ v : Bool, c.en_line = some v →
      (fdir_step c now_done now_arm anomaly f score).en_line = some false) ∧
    (∀ v : Bool, c.ef_line = some v →
      (fdir_step c now_done now_arm anomaly f score).ef_line = some false) ∧
    (∀ now_done1 now_arm1 : timespec,
      fdir_step c now_done1 now_arm1 anomaly f score
        = fdir_step c now_done now_arm anomaly f score) := by
  obtain ⟨h1, h2⟩ := hrel
  refine ⟨relatch_didt_eq, relatch_droop_eq, ?_, ?_, ?_, ?_, ?_, ?_, ?_⟩
  · simp [fdir_step, hV, h1, h2, power_cut]
  · simp [fdir_step, hV, h1, h2, power_cut]
  · simp [fdir_step, hV, h1, h2, power_cut]
  · simp [fdir_step, hV, h1, h2, power_cut]
  · intro v hv
    simp [fdir_step, hV, h1, h2, power_cut, gpio_set, hv]
  · intro v hv
    simp [fdir_step, hV, h1, h2, power_cut, gpio_set, hv]
  · intro now_done1 now_arm1
    simp [fdir_step, hV, h1, h2]

/-- Witness of C9: `ST_HOLD` entered at reading `(1, 995000000)`, so the deadline
`(2, 5000000)` carries into the seconds field; a tick 1 ns before it leaves the
context unchanged, a tick at it moves to `ST_VERIFY`. -/
theorem hold_lasts_until_holdoff_witness :
    (ctx_dwell1.st = ST_NORMAL ∧ ctx_hold.st = ST_HOLD ∧
      timespec.normalised { tv_sec := 1, tv_nsec := 995000000 }) ∧
    fdir_run ctx_hold [tick_at 2 4999999 true feat_relatch] = ctx_hold ∧
    (fdir_tick ctx_hold (tick_at 2 5000000 false feat_quiet)).st = ST_VERIFY :=
  have h1 : ctx_dwell1.st = ST_NORMAL := by decide
  have h2 : ctx_hold.st = ST_HOLD := by decide
  have h3 : timespec.normalised { tv_sec := 1, tv_nsec := 995000000 } := by decide
  have H := hold_lasts_until_holdoff ctx_dwell1 ctx_hold
    { tv_sec := 1, tv_nsec := 995000000 } { tv_sec := 1, tv_nsec := 995000000 }
    true feat_quiet (0 : ℚ) h1 rfl h2 h3
  ⟨⟨h1, h2, h3⟩,
    H.2.1 [tick_at 2 4999999 true feat_relatch] (by
      intro t ht
      rw [List.mem_singleton.mp ht]
      decide),
    ((H.2.2 (tick_at 2 5000000 false feat_quiet) (by decide)).1).mpr (by decide)⟩

/-- Witness of C10: in `ctx_verify` (deadline `(5, 0)`, enable line high) a tick
at the reading `(6, 0)`, where the deadline has already elapsed, whose features
are the binary32 numbers next above the two relatch thresholds, goes to `ST_SAFE`
with the enable line low and one more `power_cut` call. -/
theorem verify_relatch_forces_safe_witness :
    (ctx_verify.st = ST_VERIFY ∧
      (feat_relatch_edge.dI_dt > b32_val ℚ (b32_mul THR_DIDT_A_PER_MS_b32 (b32_lit 8 10)) ∧
        feat_relatch_edge.Vout_droop > b32_val ℚ (b32_mul THR_DROOP_V_b32 (b32_lit 8 10))) ∧
      deadline_done { tv_sec := 6, tv_nsec := 0 } ctx_verify.deadline = true ∧
      ctx_verify.en_line = some true) ∧
    (fdir_step ctx_verify { tv_sec := 6, tv_nsec := 0 } { tv_sec := 6, tv_nsec := 0 }
        false feat_relatch_edge (0 : ℚ)).st = ST_SAFE ∧
    (fdir_step ctx_verify { tv_sec := 6, tv_nsec := 0 } { tv_sec := 6, tv_nsec := 0 }
        false feat_relatch_edge (0 : ℚ)).calls
      = [power_call.cut, power_call.restart_soft, power_call.cut] ∧
    (fdir_step ctx_verify { tv_sec := 6, tv_nsec := 0 } { tv_sec := 6, tv_nsec := 0 }
        false feat_relatch_edge (0 : ℚ)).en_line = some false :=
  have h1 : ctx_verify.st = ST_VERIFY := by decide
  have h2 : feat_relatch_edge.dI_dt > b32_val ℚ (b32_mul THR_DIDT_A_PER_MS_b32 (b32_lit 8 10)) ∧
      feat_relatch_edge.Vout_droop > b32_val ℚ (b32_mul THR_DROOP_V_b32 (b32_lit 8 10)) := by
    rw [relatch_didt_eq, relatch_droop_eq]
    constructor <;> norm_num [feat_relatch_edge]
  have h3 : deadline_done { tv_sec := 6, tv_nsec := 0 } ctx_verify.deadline = true := by decide
  have h4 : ctx_verify.en_line = some true := by decide
  have H := verify_relatch_forces_safe ctx_verify { tv_sec := 6, tv_nsec := 0 }
    { tv_sec := 6, tv_nsec := 0 } false feat_relatch_edge (0 : ℚ) h1 h2
  ⟨⟨h1, h2, h3, h4⟩, H.2.2.1, H.2.2.2.1, H.2.2.2.2.2.2.1 true h4⟩

theorem verify_at_relatch_threshold :
    fdir_step ctx_verify { tv_sec := 4, tv_nsec := 0 } { tv_sec := 4, tv_nsec := 0 } true
      feat_relatch_at (0 : ℚ) = ctx_verify := by
  have h : ¬ (b32_val ℚ (b32_mul THR_DIDT_A_PER_MS_b32 (b32_lit 8 10)) < feat_relatch_at.dI_dt) := by
    rw [relatch_didt_eq]
    norm_num [feat_relatch_at]
  have hd : deadline_done { tv_sec := 4, tv_nsec := 0 } ctx_verify.deadline = false := by decide
  have hst : ctx_verify.st = ST_VERIFY := rfl
  simp [fdir_step, hst, h, hd]

end FdirClaims

section FdirClaims2
variable {α : Type} [LinearOrderedField α]

open fdir_state_t

/-- C11: `ST_SAFE` is absorbing: from `ST_SAFE` every sequence of ticks, with
any verdicts, feature vectors, scores and clock readings, leaves the whole
context unchanged, so the state stays `ST_SAFE`, no actuator call is made (no
soft restart) and the power-enable lines keep their level. -/
theorem safe_is_absorbing (c : fdir_ctx) (ts : List (tick α)) (hS : c.st = ST_SAFE) :
    fdir_run c ts = c ∧ (fdir_run c ts).st = ST_SAFE ∧ (fdir_run c ts).calls = c.calls ∧
    (fdir_run c ts).en_line = c.en_line ∧ (fdir_run c ts).ef_line = c.ef_line := by
  have hrun : fdir_run c ts = c := by
    induction ts using List.reverseRecOn with
    | nil => rfl
    | append_singleton ts t ih =>
      rw [fdir_run_snoc, ih]
      simp [fdir_tick, fdir_step, hS]
  rw [hrun]
  exact ⟨rfl, hS, rfl, rfl, rfl⟩

/-- Witness of C11: the context reached by a relatch in `ctx_verify`, then an
anomalous relatching tick and a quiet tick long after. -/
theorem safe_is_absorbing_witness :
    ctx_safe.st = ST_SAFE ∧
    fdir_run ctx_safe [tick_at 7 0 true feat_relatch, tick_at 999 0 false feat_quiet] = ctx_safe ∧
    ctx_safe.en_line = some false :=
  have h : ctx_safe.st = ST_SAFE := by decide
  ⟨h, (safe_is_absorbing ctx_safe
    [tick_at 7 0 true feat_relatch, tick_at 999 0 false feat_quiet] h).1, by decide⟩

/-- C20: for every normalised reading `now` and every `ms >= 0`,
`set_deadline_ms(ms)` stores a normalised `timespec` worth exactly
`now + ms * 10^6` nanoseconds (the nanosecond overflow is carried into
`tv_sec`), and for every normalised reading `now1`, `deadline_done` is true if
and only if `now1`, in total nanoseconds, is at or after that deadline. -/
theorem deadline_arithmetic (now now1 : timespec) (ms : Int)
    (hnow : now.normalised) (hms : 0 ≤ ms) (hnow1 : now1.normalised) :
    (set_deadline_ms now ms).normalised ∧
    (set_deadline_ms now ms).ns = now.ns + ms * 1000000 ∧
    (deadline_done now1 (set_deadline_ms now ms) = true ↔
      now.ns + ms * 1000000 ≤ now1.ns) := by
  obtain ⟨hn, hns⟩ := set_deadline_ms_spec now ms hnow hms
  refine ⟨hn, hns, ?_⟩
  rw [deadline_done_iff now1 _ hnow1 hn, hns]

/-- Witness of C20: 1500 ms added to the reading `(7, 600000000)` gives
`(9, 100000000)`; the reading `(9, 99999999)` is before it. -/
theorem deadline_arithmetic_witness :
    (timespec.normalised { tv_sec := 7, tv_nsec := 600000000 } ∧ (0 : Int) ≤ 1500 ∧
      timespec.normalised { tv_sec := 9, tv_nsec := 99999999 }) ∧
    set_deadline_ms { tv_sec := 7, tv_nsec := 600000000 } 1500
      = { tv_sec := 9, tv_nsec := 100000000 } ∧
    (deadline_done { tv_sec := 9, tv_nsec := 99999999 }
        (set_deadline_ms { tv_sec := 7, tv_nsec := 600000000 } 1500) = true ↔
      timespec.ns { tv_sec := 7, tv_nsec := 600000000 } + 1500 * 1000000
        ≤ timespec.ns { tv_sec := 9, tv_nsec := 99999999 }) :=
  have h1 : timespec.normalised { tv_sec := 7, tv_nsec := 600000000 } := by decide
  have h2 : (0 : Int) ≤ 1500 := by decide
  have h3 : timespec.normalised { tv_sec := 9, tv_nsec := 99999999 } := by decide
  ⟨⟨h1, h2, h3⟩, by decide,
    (deadline_arithmetic { tv_sec := 7, tv_nsec := 600000000 }
      { tv_sec := 9, tv_nsec := 99999999 } 1500 h1 h2 h3).2.2⟩

/-- C15: with `USE_RIPPLE = 0`, `rules_triggered(f)` is true if and only if
`f.dI_dt > THR_DIDT_A_PER_MS` and `f.Vout_droop > THR_DROOP_V`, both strictly,
the thresholds being the binary32 numbers `0.8f` (value `13421773/2^24`) and
`0.040f` (value `5368709/2^27`); a feature vector whose droop field holds 0.04 V,
the binary32 number `0.04f`, never triggers, whatever its `dI_dt`, nor does one
whose `dI_dt` field holds `0.8f`, whatever its droop, and the result does not
depend on `ripple_RMS`, `efficiency` or `dEff_dT`. -/
theorem rules_triggered_iff (f : features_t α) :
    USE_RIPPLE = false ∧ THR_DIDT_A_PER_MS α = 13421773 / 16777216 ∧
    THR_DROOP_V α = 5368709 / 134217728 ∧
    (rules_triggered f = true ↔
      f.dI_dt > THR_DIDT_A_PER_MS α ∧ f.Vout_droop > THR_DROOP_V α) ∧
    (f.Vout_droop = b32_val α (b32_lit 4 100) → rules_triggered f = false) ∧
    (f.dI_dt = b32_val α (b32_lit 8 10) → rules_triggered f = false) ∧
    (∀ r e d : α, rules_triggered { f with ripple_RMS := r, efficiency := e, dEff_dT := d }
      = rules_triggered f) := by
  refine ⟨rfl, THR_DIDT_A_PER_MS_eq, THR_DROOP_V_eq, ?_, ?_, ?_, ?_⟩
  · simp [rules_triggered]
  · intro h
    have h4 : ¬ (THR_DROOP_V α < f.Vout_droop) := by
      rw [h, b32_val_lit_4_100, THR_DROOP_V_eq]
      exact lt_irrefl _
    simp [rules_triggered, h4]
  · intro h
    have h4 : ¬ (THR_DIDT_A_PER_MS α < f.dI_dt) := by
      rw [h]
      exact lt_irrefl _
    simp [rules_triggered, h4]
  · intro r e d
    simp [rules_triggered]

/-- Witness of C15: a vector with `dI_dt = 5` and a droop field holding `0.04f`,
and a vector with a droop of 1 V and a `dI_dt` field holding `0.8f`. -/
theorem rules_triggered_iff_witness :
    (feat_boundary.Vout_droop = b32_val ℚ (b32_lit 4 100) ∧
      rules_triggered feat_boundary = false) ∧
    (feat_rule_edge.dI_dt = b32_val ℚ (b32_lit 8 10) ∧
      rules_triggered feat_rule_edge = false) :=
  have h : feat_boundary.Vout_droop = b32_val ℚ (b32_lit 4 100) := by
    rw [b32_val_lit_4_100]
    rfl
  have h1 : feat_rule_edge.dI_dt = b32_val ℚ (b32_lit 8 10) := by
    have h2 := @THR_DIDT_A_PER_MS_eq ℚ _
    rw [THR_DIDT_A_PER_MS, THR_DIDT_A_PER_MS_b32] at h2
    rw [h2]
    rfl
  ⟨⟨h, (rules_triggered_iff feat_boundary).2.2.2.2.1 h⟩,
    h1, (rules_triggered_iff feat_rule_edge).2.2.2.2.2.1 h1⟩

end FdirClaims2

section FeatureProofs
variable {α : Type} [LinearOrderedField α]

theorem ring_start (idx n : Nat) (h : n ≤ idx + 60) :
    to_u16 (Int.tmod ((idx : Int) + (BUF_MAX : Int) - (n : Int)) (BUF_MAX : Int))
      = (idx + 60 - n) % 60 := by
  simp only [to_u16, BUF_MAX_eq]
  rw [Int.tmod_eq_emod (by omega) (by omega)]
  omega

theorem last_n_length {β : Type} (l : List β) (n : Nat) (h : n ≤ l.length) :
    (last_n l n).length = n := by
  simp [last_n]; omega

theorem last_n_getElem? {β : Type} (l : List β) (n j : Nat) :
    (last_n l n)[j]? = l[l.length - n + j]? := by
  simp [last_n]

/-- Slot `(start + j) mod 60` of the window of `n` samples holds `s_{k-n+j}`. -/
theorem window_slot (l : List (RawSample α)) (n j : Nat) (hn : n ≤ l.length) (h60 : n ≤ 60)
    (hj : j < n) :
    l[l.length - n + j]?
      = some ((pushes l).slot ((((pushes l).idx + 60 - n) % 60 + j) % 60)) := by
  have hslot := pushes_slot l (l.length - n + j) (by omega) (by simp only [BUF_MAX_eq]; omega)
  rw [hslot, pushes_idx]
  simp only [BUF_MAX_eq]
  congr 2
  omega

theorem window_slots (l : List (RawSample α)) (n : Nat) (hn : n ≤ l.length) (h60 : n ≤ 60) :
    (List.range n).map (fun j => (pushes l).slot ((((pushes l).idx + 60 - n) % 60 + j) % 60))
      = last_n l n := by
  apply List.ext_getElem?
  intro j
  rw [last_n_getElem?]
  by_cases hj : j < n
  · rw [window_slot l n j hn h60 hj]
    simp [hj]
  · have h1 : l.length ≤ l.length - n + j := by omega
    simp [List.getElem?_eq_none h1]
    omega

theorem foldl_add_eq_sum (g : Nat → α) (xs : List Nat) (a : α) :
    xs.foldl (fun s k => s + g k) a = a + (xs.map g).sum := by
  induction xs generalizing a with
  | nil => simp
  | cons x xs ih => simp [ih, add_assoc]


theorem map_window_chan (l : List (RawSample α)) (n : Nat) (hn : n ≤ l.length) (h60 : n ≤ 60)
    (g : RawSample α → α) :
    (List.range n).map (fun j => g ((pushes l).slot ((((pushes l).idx + 60 - n) % 60 + j) % 60)))
      = (last_n l n).map g := by
  rw [← window_slots l n hn h60, List.map_map]
  rfl

theorem mean_wrap_window (l : List (RawSample α)) (n : Nat) (hn : n ≤ l.length) (h60 : n ≤ 60)
    (g : RawSample α → α) :
    mean_wrap (fun i => g ((pushes l).slot i)) (((pushes l).idx + 60 - n) % 60) n
      = mean_of ((last_n l n).map g) := by
  unfold mean_wrap mean_of
  rw [foldl_add_eq_sum, zero_add]
  simp only [BUF_MAX_eq]
  rw [map_window_chan l n hn h60 g, List.length_map, last_n_length l n hn]

theorem get_window_20 (rb : rawbuf_t α) (h20 : 20 ≤ rb.count) :
    get_window rb 20 0 = (true, (rb.idx + 60 - 20) % 60) := by
  have hlt : ¬ rb.count < 20 := by omega
  simp only [get_window, if_neg hlt, ring_start rb.idx 20 (by omega)]

theorem feats_compute_dI_dt (rb : rawbuf_t α) (out : features_t α) (h20 : 20 ≤ rb.count) :
    (feats_compute rb out).2.dI_dt
      = (rb.iin (((rb.idx + 60 - 20) % 60 + 19) % 60) - rb.iin ((rb.idx + 60 - 20) % 60)) / 2 := by
  have hg := get_window_20 rb h20
  simp only [feats_compute, FS_HZ, WIN_MS, hg, BUF_MAX_eq]
  norm_num

theorem feats_compute_droop (rb : rawbuf_t α) (out : features_t α) (h20 : 20 ≤ rb.count)
    (hc : rb.count ≤ 60) :
    (feats_compute rb out).2.Vout_droop
      = mean_wrap rb.vout ((rb.idx + 60 - rb.count) % 60) rb.count
        - mean_wrap rb.vout ((rb.idx + 60 - 20) % 60) 20 := by
  have hg := get_window_20 rb h20
  have hb : (100 : Nat) > rb.count := by omega
  have hs := ring_start rb.idx rb.count (by omega)
  simp only [BUF_MAX_eq, Nat.cast_ofNat] at hs
  simp only [feats_compute, FS_HZ, WIN_MS, hg, BUF_MAX_eq]
  norm_num [hb, hs]

theorem feats_compute_efficiency (rb : rawbuf_t α) (out : features_t α) (h20 : 20 ≤ rb.count) :
    (feats_compute rb out).2.efficiency
      = ((List.range 20).foldl
          (fun s k => s + eff_at rb (((rb.idx + 60 - 20) % 60 + k) % 60)) 0) / 20 := by
  have hg := get_window_20 rb h20
  simp only [feats_compute, FS_HZ, WIN_MS, hg, BUF_MAX_eq]
  norm_num


end FeatureProofs

section FeatureProofs2
variable {α : Type} [LinearOrderedField α]

theorem feats_compute_ok_length (l : List (RawSample α)) (out : features_t α)
    (hok : (feats_compute (pushes l) out).1 = true) : 20 ≤ l.length := by
  by_contra hlt
  have hc : (pushes l).count < 20 := by
    rw [pushes_count, BUF_MAX_eq]; omega
  rw [feats_compute_not_ready _ out hc] at hok
  simp at hok

theorem count_window_bounds (l : List (RawSample α)) (h : 20 ≤ l.length) :
    20 ≤ (pushes l).count ∧ (pushes l).count ≤ 60 ∧ (pushes l).count ≤ l.length := by
  rw [pushes_count, BUF_MAX_eq]; omega

theorem win_samples_eq : win_samples = 20 := rfl

theorem eff_at_eq (rb : rawbuf_t α) (i : Nat) : eff_at rb i = eff_sample (rb.slot i) := rfl

end FeatureProofs2

section FeatureClaims
variable {α : Type} [LinearOrderedField α]

/-- C12: whenever `feats_compute` succeeds, `dI_dt` is the input current of the
most recently pushed sample minus the input current of the sample pushed
`win - 1` pushes earlier, divided by `WIN_MS = 2`; a rise from 0.40 A to 0.42 A
gives 0.01 A/ms. -/
theorem dI_dt_is_window_slope (l : List (RawSample α)) (out : features_t α)
    (hok : (feats_compute (pushes l) out).1 = true) :
    ∃ s_first s_last : RawSample α,
      l[l.length - 1 - (win_samples - 1)]? = some s_first ∧
      l[l.length - 1]? = some s_last ∧
      (feats_compute (pushes l) out).2.dI_dt = (s_last.iin - s_first.iin) / (WIN_MS : α) ∧
      (s_first.iin = 40 / 100 → s_last.iin = 42 / 100 →
        (feats_compute (pushes l) out).2.dI_dt = 1 / 100) := by
  have h20 := feats_compute_ok_length l out hok
  obtain ⟨hc20, _, _⟩ := count_window_bounds l h20
  have h0 := window_slot l 20 0 h20 (by omega) (by omega)
  have h19 := window_slot l 20 19 h20 (by omega) (by omega)
  have e0 : l.length - 1 - (win_samples - 1) = l.length - 20 + 0 := by
    rw [win_samples_eq]; omega
  have e19 : l.length - 1 = l.length - 20 + 19 := by omega
  have hd := feats_compute_dI_dt (pushes l) out hc20
  refine ⟨_, _, by rw [e0]; exact h0, by rw [e19]; exact h19, ?_, ?_⟩
  · rw [hd]
    simp [rawbuf_t.slot, WIN_MS]
  · intro hf hl
    rw [hd]
    simp only [rawbuf_t.slot, Nat.add_zero, Nat.mod_mod] at hf hl
    rw [hf, hl]
    norm_num


/-- Witness of C12: 20 pushes whose input current rises from 0.40 A to 0.42 A. -/
theorem dI_dt_is_window_slope_witness :
    (feats_compute (pushes ramp_pushes) out_prior).1 = true ∧
    (feats_compute (pushes ramp_pushes) out_prior).2.dI_dt = 1 / 100 := by
  have hok : (feats_compute (pushes ramp_pushes) out_prior).1 = true :=
    feats_compute_ready _ _ (by rw [pushes_count, BUF_MAX_eq]; decide)
  obtain ⟨sf, sl, h1, h2, _, h4⟩ := dI_dt_is_window_slope ramp_pushes out_prior hok
  have e1 : ramp_pushes[ramp_pushes.length - 1 - (win_samples - 1)]? = some (ramp_sample 0) :=
    rfl
  have e2 : ramp_pushes[ramp_pushes.length - 1]? = some (ramp_sample 19) := rfl
  rw [e1] at h1
  rw [e2] at h2
  cases h1
  cases h2
  refine ⟨hok, h4 ?_ ?_⟩ <;> norm_num [ramp_sample]

theorem clampf_bounds (x a b : α) (hab : a ≤ b) : a ≤ clampf x a b ∧ clampf x a b ≤ b := by
  unfold clampf
  split
  · exact ⟨le_rfl, hab⟩
  · split
    · exact ⟨hab, le_rfl⟩
    · rename_i h1 h2
      exact ⟨not_lt.mp h1, not_lt.mp h2⟩

theorem clampf_id (x a b : α) (h1 : a ≤ x) (h2 : x ≤ b) : clampf x a b = x := by
  unfold clampf
  rw [if_neg (not_lt.mpr h1), if_neg (not_lt.mpr h2)]

theorem sum_bounds (xs : List α) (a b : α) (h : ∀ x ∈ xs, a ≤ x ∧ x ≤ b) :
    (xs.length : α) * a ≤ xs.sum ∧ xs.sum ≤ (xs.length : α) * b := by
  induction xs with
  | nil => simp
  | cons x xs ih =>
    obtain ⟨h1, h2⟩ := ih (fun y hy => h y (List.mem_cons_of_mem _ hy))
    obtain ⟨hx1, hx2⟩ := h x (List.mem_cons_self _ _)
    simp only [List.length_cons, List.sum_cons, Nat.cast_add, Nat.cast_one]
    constructor <;> nlinarith

theorem mean_of_bounds (xs : List α) (a b : α) (hne : 0 < xs.length)
    (h : ∀ x ∈ xs, a ≤ x ∧ x ≤ b) : a ≤ mean_of xs ∧ mean_of xs ≤ b := by
  obtain ⟨h1, h2⟩ := sum_bounds xs a b h
  have hpos : (0 : α) < (xs.length : α) := by exact_mod_cast hne
  unfold mean_of
  constructor
  · rw [le_div_iff₀ hpos]; linarith
  · rw [div_le_iff₀ hpos]; linarith

theorem mean_of_const (xs : List α) (T : α) (hne : 0 < xs.length) (h : ∀ x ∈ xs, x = T) :
    mean_of xs = T := by
  obtain ⟨h1, h2⟩ := mean_of_bounds xs T T hne (fun x hx => by rw [h x hx]; exact ⟨le_rfl, le_rfl⟩)
  exact le_antisymm h2 h1

end FeatureClaims

section FeatureClaims2
variable {α : Type} [LinearOrderedField α]

/-- C13, the arithmetic read over the reals: whenever `feats_compute` succeeds,
`Vout_droop` is the mean output voltage over the `min(5*win, count)` most
recently pushed samples minus the mean output voltage over the `win` most
recently pushed samples; it is positive exactly when the window mean lies below
the baseline mean, and a baseline mean of 5.00 V with a window mean of 4.96 V
gives 0.04 V. -/
theorem droop_is_baseline_minus_window (l : List (RawSample α)) (out : features_t α)
    (hok : (feats_compute (pushes l) out).1 = true) :
    (feats_compute (pushes l) out).2.Vout_droop = droop_spec l (pushes l).count ∧
    (0 < (feats_compute (pushes l) out).2.Vout_droop ↔
      mean_of ((last_n l win_samples).map (fun s => s.vout))
        < mean_of ((last_n l (min (5 * win_samples) (pushes l).count)).map (fun s => s.vout))) ∧
    (mean_of ((last_n l (min (5 * win_samples) (pushes l).count)).map (fun s => s.vout)) = 5 →
      mean_of ((last_n l win_samples).map (fun s => s.vout)) = 496 / 100 →
      (feats_compute (pushes l) out).2.Vout_droop = 4 / 100) := by
  have h20 := feats_compute_ok_length l out hok
  obtain ⟨hc20, hc60, hck⟩ := count_window_bounds l h20
  have hb : mean_wrap (pushes l).vout (((pushes l).idx + 60 - (pushes l).count) % 60)
        (pushes l).count
      = mean_of ((last_n l (pushes l).count).map (fun s => s.vout)) :=
    mean_wrap_window l (pushes l).count hck hc60 (fun s => s.vout)
  have hw : mean_wrap (pushes l).vout (((pushes l).idx + 60 - 20) % 60) 20
      = mean_of ((last_n l 20).map (fun s => s.vout)) :=
    mean_wrap_window l 20 h20 (by omega) (fun s => s.vout)
  have hmin : min (5 * win_samples) (pushes l).count = (pushes l).count := by
    rw [win_samples_eq]; omega
  have hd : (feats_compute (pushes l) out).2.Vout_droop = droop_spec l (pushes l).count := by
    rw [feats_compute_droop (pushes l) out hc20 hc60, hb, hw, droop_spec, hmin, win_samples_eq]
  refine ⟨hd, ?_, ?_⟩
  · rw [hd, droop_spec, sub_pos]
  · intro h1 h2
    rw [hd, droop_spec, h1, h2]
    norm_num

theorem droop_pushes_count : (pushes droop_pushes).count = 60 := by
  rw [pushes_count, BUF_MAX_eq]; decide

theorem droop_pushes_baseline :
    mean_of ((last_n droop_pushes (min (5 * win_samples) (pushes droop_pushes).count)).map
      (fun s => s.vout)) = 5 := by
  rw [droop_pushes_count]
  have h : last_n droop_pushes (min (5 * win_samples) 60) = droop_pushes := rfl
  rw [h]
  simp [mean_of, droop_pushes, sample_vout, List.sum_replicate]
  norm_num

theorem droop_pushes_window :
    mean_of ((last_n droop_pushes win_samples).map (fun s => s.vout)) = 496 / 100 := by
  have h : last_n droop_pushes win_samples = List.replicate 20 (sample_vout (496 / 100)) := rfl
  rw [h]
  simp [mean_of, sample_vout, List.sum_replicate]
  norm_num

/-- Witness of C13: a full ring of 60 samples with mean 5.00 V whose last 20
samples are at 4.96 V has a droop of 0.04 V. -/
theorem droop_is_baseline_minus_window_witness :
    (feats_compute (pushes droop_pushes) out_prior).1 = true ∧
    (feats_compute (pushes droop_pushes) out_prior).2.Vout_droop = 4 / 100 :=
  have hok : (feats_compute (pushes droop_pushes) out_prior).1 = true :=
    feats_compute_ready _ _ (by rw [droop_pushes_count]; decide)
  ⟨hok, (droop_is_baseline_minus_window droop_pushes out_prior hok).2.2
    droop_pushes_baseline droop_pushes_window⟩

theorem eff_sample_bounds (s : RawSample α) : 0 ≤ eff_sample s ∧ eff_sample s ≤ 12 / 10 :=
  clampf_bounds _ 0 (12 / 10) (by norm_num)

/-- C14: whenever `feats_compute` succeeds, for all buffer contents the
efficiency is the mean over the window of
`clamp(Vout*Iout / max(Vin*Iin, 1e-6), 0, 1.2)` and lies in `[0, 1.2]`; a sample
whose ratio is inside `[0, 1.2]` contributes the ratio itself, and `Pin = 3.2 W`,
`Pout = 2.9 W` contribute 0.90625. -/
theorem efficiency_is_mean_clamped (l : List (RawSample α)) (out : features_t α)
    (hok : (feats_compute (pushes l) out).1 = true) :
    (feats_compute (pushes l) out).2.efficiency = efficiency_spec l ∧
    0 ≤ (feats_compute (pushes l) out).2.efficiency ∧
    (feats_compute (pushes l) out).2.efficiency ≤ 12 / 10 ∧
    (∀ s : RawSample α,
      0 ≤ (s.vout * s.iout) / max (s.vin * s.iin) (1 / 1000000) →
      (s.vout * s.iout) / max (s.vin * s.iin) (1 / 1000000) ≤ 12 / 10 →
      eff_sample s = (s.vout * s.iout) / max (s.vin * s.iin) (1 / 1000000)) ∧
    (∀ s : RawSample α, s.vin * s.iin = 32 / 10 → s.vout * s.iout = 29 / 10 →
      eff_sample s = 90625 / 100000) := by
  have h20 := feats_compute_ok_length l out hok
  obtain ⟨hc20, hc60, hck⟩ := count_window_bounds l h20
  have hsum := map_window_chan l 20 h20 (by omega) eff_sample
  have he : (feats_compute (pushes l) out).2.efficiency = efficiency_spec l := by
    rw [feats_compute_efficiency (pushes l) out hc20, foldl_add_eq_sum, zero_add]
    simp only [eff_at_eq]
    rw [hsum, efficiency_spec, mean_of, win_samples_eq, List.length_map, last_n_length l 20 h20]
    norm_num
  have hbounds : 0 ≤ efficiency_spec l ∧ efficiency_spec l ≤ 12 / 10 := by
    apply mean_of_bounds
    · rw [List.length_map, win_samples_eq, last_n_length l 20 h20]; omega
    · intro x hx
      obtain ⟨s, _, rfl⟩ := List.mem_map.mp hx
      exact eff_sample_bounds s
  refine ⟨he, by rw [he]; exact hbounds.1, by rw [he]; exact hbounds.2, ?_, ?_⟩
  · intro s h0 h1
    exact clampf_id _ _ _ h0 h1
  · intro s hin hout
    have hmax : max (s.vin * s.iin) (1 / 1000000) = 32 / 10 := by
      rw [hin]; exact max_eq_left (by norm_num)
    unfold eff_sample
    rw [hmax, hout, clampf_id _ _ _ (by norm_num) (by norm_num)]
    norm_num

/-- Witness of C14: 62 pushes, and the sample with `Pin = 3.2 W`, `Pout = 2.9 W`. -/
theorem efficiency_is_mean_clamped_witness :
    (feats_compute (pushes pushes62) out_prior).1 = true ∧
    (0 ≤ (feats_compute (pushes pushes62) out_prior).2.efficiency ∧
      (feats_compute (pushes pushes62) out_prior).2.efficiency ≤ 12 / 10) ∧
    (sample_eff.vin * sample_eff.iin = 32 / 10 ∧ sample_eff.vout * sample_eff.iout = 29 / 10 ∧
      eff_sample sample_eff = 90625 / 100000) :=
  have hok : (feats_compute (pushes pushes62) out_prior).1 = true :=
    feats_compute_ready _ _ (by rw [pushes_count, BUF_MAX_eq]; decide)
  have hin : sample_eff.vin * sample_eff.iin = 32 / 10 := by norm_num [sample_eff]
  have hout : sample_eff.vout * sample_eff.iout = 29 / 10 := by norm_num [sample_eff]
  have H := efficiency_is_mean_clamped pushes62 out_prior hok
  ⟨hok, ⟨H.2.1, H.2.2.1⟩, hin, hout, H.2.2.2.2 sample_eff hin hout⟩

end FeatureClaims2

section FeatureClaims3
variable {α : Type} [LinearOrderedField α]

end FeatureClaims3

section Binary32Features

set_option maxRecDepth 100000

theorem b32_lit_496 :
    b32_lit 496 100 = 3539574305133369858699626281304716532770668544 := by decide

theorem b32_lit_one : b32_lit 1 1 = 713623846352979940529142984724747568191373312 := by
  decide

theorem constant_ring_baseline :
    mean_of ((last_n ((List.replicate 60 sample_496).map RawSample.val)
      (min (5 * win_samples) 60)).map (fun s => s.vout)) = 5200937 / 1048576 := by
  have h : last_n ((List.replicate 60 sample_496).map RawSample.val) (min (5 * win_samples) 60)
      = List.replicate 60 (RawSample.val sample_496) := by
    rw [List.map_replicate]
    rfl
  rw [h, List.map_replicate]
  apply mean_of_const
  · simp
  · intro x hx
    rw [List.eq_of_mem_replicate hx]
    simp only [RawSample.val, sample_496, b32_lit_496, b32_val, b32_one]
    norm_num

theorem constant_ring_window :
    mean_of ((last_n ((List.replicate 60 sample_496).map RawSample.val) win_samples).map
      (fun s => s.vout)) = 5200937 / 1048576 := by
  have h : last_n ((List.replicate 60 sample_496).map RawSample.val) win_samples
      = List.replicate 20 (RawSample.val sample_496) := by
    rw [List.map_replicate]
    rfl
  rw [h, List.map_replicate]
  apply mean_of_const
  · simp
  · intro x hx
    rw [List.eq_of_mem_replicate hx]
    simp only [RawSample.val, sample_496, b32_lit_496, b32_val, b32_one]
    norm_num

/-- C13 as stated fails for the binary32 arithmetic of the code: on a full ring
of 60 samples that all hold the output voltage `4.96f`, `feats_compute` succeeds
with `count = 60` and returns the droop `2^-19` V, which is positive, although
the mean over the 60 most recent samples and the mean over the 20 most recent
samples are both `4.96f = 5200937/2^20`: their difference is 0 and the window mean
does not lie below the baseline mean. The sum of 60 equal terms and the sum of
20 equal terms round differently. -/
theorem droop_positive_on_constant_ring :
    (pushes_b32 (List.replicate 60 sample_496)).count = 60 ∧
    (feats_compute_b32 (pushes_b32 (List.replicate 60 sample_496)) out_zero).1 = true ∧
    (feats_compute_b32 (pushes_b32 (List.replicate 60 sample_496)) out_zero).2.Vout_droop
      = 1361129467683753853853498429727072845824 ∧
    b32_val ℚ 1361129467683753853853498429727072845824 = 1 / 524288 ∧
    droop_spec ((List.replicate 60 sample_496).map RawSample.val) 60 = 0 ∧
    ¬ (mean_of ((last_n ((List.replicate 60 sample_496).map RawSample.val) win_samples).map
          (fun s => s.vout))
        < mean_of ((last_n ((List.replicate 60 sample_496).map RawSample.val)
          (min (5 * win_samples) 60)).map (fun s => s.vout))) := by
  refine ⟨by decide, by decide, by decide, ?_, ?_, ?_⟩
  · norm_num [b32_val, b32_one]
  · rw [droop_spec, constant_ring_baseline, constant_ring_window, sub_self]
  · rw [constant_ring_baseline, constant_ring_window]
    exact lt_irrefl _

end Binary32Features

section TraversalProofs
variable {α : Type} [LinearOrderedField α]

theorem tree_walk_eq_exit (logf : α → α) (m : Model α) (z : List α) :
    ∀ (k : Nat) (node : Int) (steps : Nat), 1025 - steps = k →
      tree_walk logf m z node steps
        = (tree_walk_exit m z node steps).map (walk_exit.value logf) := by
  intro k
  induction k using Nat.strong_induction_on with
  | _ k ih =>
    intro node steps hk
    rw [tree_walk, tree_walk_exit]
    rcases h1 : rd m.features_idx node with _ | feat
    · rfl
    rcases h2 : rd m.children_left node with _ | left
    · rfl
    rcases h3 : rd m.children_right node with _ | right
    · rfl
    simp only []
    by_cases hleaf : left = -1 ∧ right = -1
    · rw [if_pos hleaf, if_pos hleaf]
      rcases h4 : rd m.node_samples node with _ | ns0
      · rfl
      · rfl
    · rw [if_neg hleaf, if_neg hleaf]
      rcases h5 : rd m.thresholds_q15 node with _ | tq
      · rfl
      rcases h6 : rd z feat with _ | val
      · rfl
      simp only []
      by_cases hcap : steps + 1 > 1024
      · rw [dif_pos hcap, dif_pos hcap]
        rfl
      · rw [dif_neg hcap, dif_neg hcap]
        exact ih (1025 - (steps + 1)) (by omega) _ (steps + 1) rfl

theorem tree_path_length_eq_exit (logf : α → α) (m : Model α) (z : List α) (t root : Int)
    (hroot : rd m.tree_offsets t = some root) :
    tree_path_length logf m t z
      = (tree_walk_exit m z root 0).map (walk_exit.value logf) := by
  simp only [tree_path_length, hroot]
  exact tree_walk_eq_exit logf m z _ root 0 rfl

theorem rd_int_some {β : Type} (a : List β) (i : Int) (h0 : 0 ≤ i) (h1 : i < (a.length : Int)) :
    ∃ v, rd a i = some v := by
  have hlt : i.toNat < a.length := by omega
  refine ⟨a[i.toNat], ?_⟩
  simp [rd, h0, List.getElem?_eq_getElem hlt]

end TraversalProofs

section TraversalProofs2
variable {α : Type} [LinearOrderedField α]

theorem walk_exit_of_well_formed (m : Model α) (z : List α) (hz : z.length = NUM_FEATURES)
    (node : Int) (h : Nat) (hwf : well_formed m node h) :
    ∀ steps, steps + h ≤ 1024 →
      ∃ (leaf : Int) (d : Nat) (ns : Int), path_to m z node leaf d ∧ d ≤ h ∧
        rd m.node_samples leaf = some ns ∧
        tree_walk_exit m z node steps
          = some (walk_exit.at_leaf leaf (steps + d) (if ns ≤ 0 then 1 else ns)) := by
  induction hwf with
  | leaf node feat ns hf hl hr hns =>
    intro steps _
    refine ⟨node, 0, ns, path_to.stop node hl hr, le_rfl, hns, ?_⟩
    rw [tree_walk_exit]
    simp [hf, hl, hr, hns]
  | inner node feat left right tq hl hr hf hf0 hf5 hcl hcr hnl htq _ _ ihl ihr =>
    intro steps hsteps
    obtain ⟨val, hval⟩ := rd_int_some z feat hf0 (by rw [hz]; exact hf5)
    have hcap : ¬ steps + 1 > 1024 := by omega
    by_cases hle : val ≤ ((tq : α) / 32767) * m.SCALE_THRESHOLDS
    · obtain ⟨leaf, d, ns, hp, hd, hns, hw⟩ := ihl (steps + 1) (by omega)
      refine ⟨leaf, d + 1, ns,
        path_to.go_left node feat left right tq leaf val d hf hcl hcr hnl htq hval hle hp,
        by omega, hns, ?_⟩
      rw [tree_walk_exit]
      simp only [hf, hcl, hcr, if_neg hnl, htq, hval, dif_neg hcap, q15_to_real, if_pos hle]
      rw [hw]
      congr 2
      omega
    · obtain ⟨leaf, d, ns, hp, hd, hns, hw⟩ := ihr (steps + 1) (by omega)
      refine ⟨leaf, d + 1, ns,
        path_to.go_right node feat left right tq leaf val d hf hcl hcr hnl htq hval hle hp,
        by omega, hns, ?_⟩
      rw [tree_walk_exit]
      simp only [hf, hcl, hcr, if_neg hnl, htq, hval, dif_neg hcap, q15_to_real, if_neg hle]
      rw [hw]
      congr 2
      omega

end TraversalProofs2

section TraversalProofs3
variable {α : Type} [LinearOrderedField α]

theorem walk_exit_in_range (m : Model α) (z : List α) (N : Nat) (hr : nodes_in_range m N)
    (hz : z.length = NUM_FEATURES) :
    ∀ (k : Nat) (node : Int) (steps : Nat), 1025 - steps = k → steps ≤ 1024 →
      0 ≤ node → node < (N : Int) →
      ∃ e, tree_walk_exit m z node steps = some e ∧ e.steps ≤ 1025 ∧
        (∀ s, e = walk_exit.capped s → s = 1025) := by
  obtain ⟨hlf, hlt, hll, hlr, hls, hchild⟩ := hr
  intro k
  induction k using Nat.strong_induction_on with
  | _ k ih =>
    intro node steps hk hsteps h0 hN
    obtain ⟨feat, hf⟩ := rd_int_some m.features_idx node h0 (by rw [hlf]; exact hN)
    obtain ⟨left, hcl⟩ := rd_int_some m.children_left node h0 (by rw [hll]; exact hN)
    obtain ⟨right, hcr⟩ := rd_int_some m.children_right node h0 (by rw [hlr]; exact hN)
    obtain ⟨ns0, hns⟩ := rd_int_some m.node_samples node h0 (by rw [hls]; exact hN)
    obtain ⟨tq, htq⟩ := rd_int_some m.thresholds_q15 node h0 (by rw [hlt]; exact hN)
    rw [tree_walk_exit]
    simp only [hf, hcl, hcr]
    by_cases hleaf : left = -1 ∧ right = -1
    · simp only [if_pos hleaf, hns]
      refine ⟨_, rfl, ?_, ?_⟩
      · simp only [walk_exit.steps]; omega
      · intro s hs; cases hs
    · have hnode : node = ((node.toNat : Nat) : Int) := by omega
      have hfn := hf; have hcln := hcl; have hcrn := hcr
      rw [hnode] at hfn hcln hcrn
      obtain ⟨⟨hl0, hlN⟩, ⟨hr0, hrN⟩, hf0, hf5⟩ :=
        hchild node.toNat feat left right (by omega) hfn hcln hcrn hleaf
      obtain ⟨val, hval⟩ := rd_int_some z feat hf0 (by rw [hz]; exact hf5)
      simp only [if_neg hleaf, htq, hval]
      by_cases hcap : steps + 1 > 1024
      · simp only [dif_pos hcap]
        refine ⟨_, rfl, ?_, ?_⟩
        · simp only [walk_exit.steps]; omega
        · intro s hs; cases hs; omega
      · simp only [dif_neg hcap]
        apply ih (1025 - (steps + 1)) (by omega) _ (steps + 1) rfl (by omega)
        · split <;> assumption
        · split <;> assumption

theorem rd_map_range {β : Type} (f : Nat → β) (N n : Nat) (h : n < N) :
    rd ((List.range N).map f) (n : Int) = some (f n) := by
  simp [rd, List.getElem?_map, List.getElem?_range h]

theorem caterpillar_leaf (d n : Nat) (hn : n < 2 * d + 1) (hleaf : ¬ (n % 2 = 0 ∧ n < 2 * d)) :
    well_formed (caterpillar α d) (n : Int) 0 := by
  apply well_formed.leaf (n : Int) (-2) 2
  · simp only [caterpillar]; rw [rd_map_range _ _ _ hn, if_neg hleaf]
  · simp only [caterpillar]; rw [rd_map_range _ _ _ hn, if_neg hleaf]
  · simp only [caterpillar]; rw [rd_map_range _ _ _ hn, if_neg hleaf]
  · simp only [caterpillar]; rw [rd_map_range _ _ _ hn]

theorem caterpillar_well_formed (d : Nat) :
    ∀ k, k ≤ d → well_formed (caterpillar α d) ((2 * (d - k) : Nat) : Int) k := by
  intro k
  induction k with
  | zero =>
    intro _
    exact caterpillar_leaf d (2 * (d - 0)) (by omega) (by omega)
  | succ k ih =>
    intro hk
    have hn : 2 * (d - (k + 1)) < 2 * d + 1 := by omega
    have hin : (2 * (d - (k + 1))) % 2 = 0 ∧ 2 * (d - (k + 1)) < 2 * d := by omega
    have hleft : well_formed (caterpillar α d) (((2 * (d - (k + 1)) : Nat) : Int) + 1) 0 := by
      have := @caterpillar_leaf α _ d (2 * (d - (k + 1)) + 1) (by omega) (by omega)
      simpa using this
    have hright : well_formed (caterpillar α d) (((2 * (d - (k + 1)) : Nat) : Int) + 2) k := by
      have := ih (by omega)
      have e : ((2 * (d - k) : Nat) : Int) = ((2 * (d - (k + 1)) : Nat) : Int) + 2 := by omega
      rwa [e] at this
    have hw := @well_formed.inner α (caterpillar α d) ((2 * (d - (k + 1)) : Nat) : Int) 0
      (((2 * (d - (k + 1)) : Nat) : Int) + 1) (((2 * (d - (k + 1)) : Nat) : Int) + 2) 0 0 k
      (by simp only [caterpillar]; rw [rd_map_range _ _ _ hn, if_pos hin])
      le_rfl (by decide)
      (by simp only [caterpillar]; rw [rd_map_range _ _ _ hn, if_pos hin])
      (by simp only [caterpillar]; rw [rd_map_range _ _ _ hn, if_pos hin])
      (by omega)
      (by simp only [caterpillar]; rw [rd_map_range _ _ _ hn])
      hleft hright
    simpa using hw

end TraversalProofs3

section TraversalProofs4
variable {α : Type} [LinearOrderedField α]

theorem caterpillar_reads (d n : Nat) (hin : n % 2 = 0 ∧ n < 2 * d) :
    rd (caterpillar α d).features_idx (n : Int) = some 0 ∧
    rd (caterpillar α d).children_left (n : Int) = some ((n : Int) + 1) ∧
    rd (caterpillar α d).children_right (n : Int) = some ((n : Int) + 2) ∧
    rd (caterpillar α d).thresholds_q15 (n : Int) = some 0 := by
  have hn : n < 2 * d + 1 := by omega
  refine ⟨?_, ?_, ?_, ?_⟩
  · simp only [caterpillar]; rw [rd_map_range _ _ _ hn, if_pos hin]
  · simp only [caterpillar]; rw [rd_map_range _ _ _ hn, if_pos hin]
  · simp only [caterpillar]; rw [rd_map_range _ _ _ hn, if_pos hin]
  · simp only [caterpillar]; rw [rd_map_range _ _ _ hn]

theorem caterpillar_root (d : Nat) : rd (caterpillar α d).tree_offsets 0 = some 0 := by
  show rd ([0] : List Int) 0 = some 0
  simp [rd]

theorem z_high_read : rd ([1, 0, 0, 0, 0] : List α) 0 = some 1 := by
  simp [rd]

theorem z_high_right (d : Nat) :
    ¬ ((1 : α) ≤ (((0 : Int) : α) / 32767) * (caterpillar α d).SCALE_THRESHOLDS) := by
  simp [caterpillar]

theorem caterpillar_path (d : Nat) :
    ∀ k, k ≤ d →
      path_to (caterpillar α d) [1, 0, 0, 0, 0] ((2 * (d - k) : Nat) : Int)
        ((2 * d : Nat) : Int) k := by
  intro k
  induction k with
  | zero =>
    intro _
    have hn : 2 * (d - 0) < 2 * d + 1 := by omega
    have hleaf : ¬ ((2 * (d - 0)) % 2 = 0 ∧ 2 * (d - 0) < 2 * d) := by omega
    have e : 2 * (d - 0) = 2 * d := by omega
    rw [e] at hn hleaf ⊢
    apply path_to.stop
    · simp only [caterpillar]; rw [rd_map_range _ _ _ hn, if_neg hleaf]
    · simp only [caterpillar]; rw [rd_map_range _ _ _ hn, if_neg hleaf]
  | succ k ih =>
    intro hk
    have hin : (2 * (d - (k + 1))) % 2 = 0 ∧ 2 * (d - (k + 1)) < 2 * d := by omega
    obtain ⟨hf, hcl, hcr, htq⟩ := @caterpillar_reads α _ d (2 * (d - (k + 1))) hin
    have hp := ih (by omega)
    have e : ((2 * (d - k) : Nat) : Int) = ((2 * (d - (k + 1)) : Nat) : Int) + 2 := by omega
    rw [e] at hp
    exact path_to.go_right _ 0 _ _ 0 _ 1 k hf hcl hcr (by omega) htq z_high_read
      (z_high_right d) hp

theorem caterpillar_capped (d : Nat) (hd : 1025 ≤ d) :
    ∀ k j, j + k = 1024 →
      tree_walk_exit (caterpillar α d) [1, 0, 0, 0, 0] ((2 * j : Nat) : Int) j
        = some (walk_exit.capped 1025) := by
  intro k
  induction k with
  | zero =>
    intro j hj
    have hin : (2 * j) % 2 = 0 ∧ 2 * j < 2 * d := by omega
    obtain ⟨hf, hcl, hcr, htq⟩ := @caterpillar_reads α _ d (2 * j) hin
    have hnl : ¬ (((2 * j : Nat) : Int) + 1 = -1 ∧ ((2 * j : Nat) : Int) + 2 = -1) := by omega
    have hcap : j + 1 > 1024 := by omega
    rw [tree_walk_exit]
    simp only [hf, hcl, hcr, if_neg hnl, htq, z_high_read, dif_pos hcap]
    congr 2
    omega
  | succ k ih =>
    intro j hj
    have hin : (2 * j) % 2 = 0 ∧ 2 * j < 2 * d := by omega
    obtain ⟨hf, hcl, hcr, htq⟩ := @caterpillar_reads α _ d (2 * j) hin
    have hnl : ¬ (((2 * j : Nat) : Int) + 1 = -1 ∧ ((2 * j : Nat) : Int) + 2 = -1) := by omega
    have hcap : ¬ j + 1 > 1024 := by omega
    have hgo : ¬ ((1 : α) ≤ q15_to_real 0 (caterpillar α d).SCALE_THRESHOLDS) := by
      simp [q15_to_real, caterpillar]
    rw [tree_walk_exit]
    simp only [hf, hcl, hcr, if_neg hnl, htq, z_high_read, dif_neg hcap, if_neg hgo]
    have e : ((2 * j : Nat) : Int) + 2 = ((2 * (j + 1) : Nat) : Int) := by omega
    rw [e]
    exact ih (j + 1) (by omega)

theorem model_cyclic_in_range : nodes_in_range (model_cyclic α) 1 := by
  refine ⟨rfl, rfl, rfl, rfl, rfl, ?_⟩
  intro n feat left right hn hf hcl hcr _
  have h0 : n = 0 := by omega
  subst h0
  simp [rd, model_cyclic] at hf hcl hcr
  subst hf hcl hcr
  decide

theorem model_cyclic_capped :
    ∀ k steps, steps + k = 1024 →
      tree_walk_exit (model_cyclic α) [1, 0, 0, 0, 0] 0 steps = some (walk_exit.capped 1025) := by
  have hf : rd (model_cyclic α).features_idx 0 = some 0 := by simp [rd, model_cyclic]
  have hcl : rd (model_cyclic α).children_left 0 = some 0 := by simp [rd, model_cyclic]
  have hcr : rd (model_cyclic α).children_right 0 = some 0 := by simp [rd, model_cyclic]
  have htq : rd (model_cyclic α).thresholds_q15 0 = some 0 := by simp [rd, model_cyclic]
  have hnl : ¬ ((0 : Int) = -1 ∧ (0 : Int) = -1) := by omega
  intro k
  induction k with
  | zero =>
    intro steps hs
    have hcap : steps + 1 > 1024 := by omega
    rw [tree_walk_exit]
    simp only [hf, hcl, hcr, if_neg hnl, htq, z_high_read, dif_pos hcap]
    congr 2
    omega
  | succ k ih =>
    intro steps hs
    have hcap : ¬ steps + 1 > 1024 := by omega
    rw [tree_walk_exit]
    simp only [hf, hcl, hcr, if_neg hnl, htq, z_high_read, dif_neg hcap, ite_self]
    exact ih (steps + 1) (by omega)

end TraversalProofs4

section TraversalClaims
variable {α : Type} [LinearOrderedField α]

/-- C18 as stated fails: the test tree of height 1025 is a finite, acyclic
binary tree with in-range child ids, the path of the vector `[1,0,0,0,0]` ends at
leaf 2050 at depth 1025 with 2 training samples, and `tree_path_length` leaves
through the depth cap, returning 1025 and not `1025 + c_of(2)`. -/
theorem depth_cap_triggers_on_deep_tree :
    well_formed (caterpillar ℝ 1025) 0 1025 ∧
    path_to (caterpillar ℝ 1025) [1, 0, 0, 0, 0] 0 2050 1025 ∧
    rd (caterpillar ℝ 1025).node_samples 2050 = some 2 ∧
    tree_walk_exit (caterpillar ℝ 1025) [1, 0, 0, 0, 0] 0 0 = some (walk_exit.capped 1025) ∧
    tree_path_length Real.log (caterpillar ℝ 1025) 0 [1, 0, 0, 0, 0] = some 1025 ∧
    (1025 : ℝ) ≠ 1025 + c_of Real.log 2 := by
  have hexit : tree_walk_exit (caterpillar ℝ 1025) [1, 0, 0, 0, 0] 0 0
      = some (walk_exit.capped 1025) :=
    @caterpillar_capped ℝ _ 1025 le_rfl 1024 0 rfl
  have hroot : rd (caterpillar ℝ 1025).tree_offsets 0 = some 0 := caterpillar_root 1025
  refine ⟨@caterpillar_well_formed ℝ _ 1025 1025 le_rfl,
    @caterpillar_path ℝ _ 1025 1025 le_rfl, ?_, hexit, ?_, ?_⟩
  · simp only [caterpillar]
    exact rd_map_range _ 2051 2050 (by decide)
  · rw [tree_path_length_eq_exit Real.log _ _ 0 0 hroot, hexit]
    simp [walk_exit.value]
  · rw [c_of_two]
    norm_num

/-- C18, amended: for every well-formed tree whose leaves all lie at depth at
most 1024 and every feature vector, the loop of `tree_path_length` ends at a
leaf, returning depth plus leaf correction, and never leaves through the
`++steps > 1024` guard. -/
theorem depth_cap_not_reached_within_1024 (logf : α → α) (m : Model α) (z : List α)
    (t root : Int) (h : Nat)
    (hroot : rd m.tree_offsets t = some root) (hwf : well_formed m root h)
    (hdepth : h ≤ 1024) (hz : z.length = NUM_FEATURES) :
    (∃ (leaf : Int) (d : Nat) (ns : Int),
      tree_walk_exit m z root 0 = some (walk_exit.at_leaf leaf d ns) ∧ d ≤ 1024 ∧
      tree_path_length logf m t z = some ((d : α) + c_of logf (ns : α))) ∧
    ∀ s, tree_walk_exit m z root 0 ≠ some (walk_exit.capped s) := by
  obtain ⟨leaf, d, ns, _, hd, _, hw⟩ :=
    walk_exit_of_well_formed m z hz root h hwf 0 (by omega)
  rw [Nat.zero_add] at hw
  refine ⟨⟨leaf, d, _, hw, by omega, ?_⟩, ?_⟩
  · rw [tree_path_length_eq_exit logf m z t root hroot, hw]
    rfl
  · intro s hs
    rw [hw] at hs
    cases hs

/-- Witness of the amended C18: the test tree of height 1024. -/
theorem depth_cap_not_reached_within_1024_witness :
    (rd (caterpillar ℝ 1024).tree_offsets 0 = some 0 ∧
      well_formed (caterpillar ℝ 1024) 0 1024 ∧ 1024 ≤ 1024 ∧
      ([1, 0, 0, 0, 0] : List ℝ).length = NUM_FEATURES) ∧
    ∀ s, tree_walk_exit (caterpillar ℝ 1024) [1, 0, 0, 0, 0] 0 0
      ≠ some (walk_exit.capped s) :=
  have h1 : rd (caterpillar ℝ 1024).tree_offsets 0 = some 0 := caterpillar_root 1024
  have h2 : well_formed (caterpillar ℝ 1024) 0 1024 :=
    @caterpillar_well_formed ℝ _ 1024 1024 le_rfl
  have h3 : 1024 ≤ 1024 := le_rfl
  have h4 : ([1, 0, 0, 0, 0] : List ℝ).length = NUM_FEATURES := rfl
  ⟨⟨h1, h2, h3, h4⟩,
    (depth_cap_not_reached_within_1024 Real.log (caterpillar ℝ 1024) [1, 0, 0, 0, 0]
      0 0 1024 h1 h2 h3 h4).2⟩

/-- C19: for every model whose node arrays have `N` entries and whose non-leaf
nodes have child ids and feature indices in range, cyclic links included, and
every vector of `NUM_FEATURES` entries, `tree_path_length` returns after at most
1025 descents; when it stops without having reached a leaf the depth reached is
1025 and the value returned is 1025, without leaf correction. -/
theorem traversal_stops_within_cap (logf : α → α) (m : Model α) (z : List α) (N : Nat)
    (t root : Int)
    (hr : nodes_in_range m N) (hz : z.length = NUM_FEATURES)
    (hroot : rd m.tree_offsets t = some root) (h0 : 0 ≤ root) (hN : root < (N : Int)) :
    ∃ e, tree_walk_exit m z root 0 = some e ∧ e.steps ≤ 1025 ∧
      tree_path_length logf m t z = some (e.value logf) ∧
      (∀ s, e = walk_exit.capped s →
        s = 1025 ∧ tree_path_length logf m t z = some ((1025 : Nat) : α)) := by
  obtain ⟨e, he, hsteps, hcap⟩ := walk_exit_in_range m z N hr hz _ root 0 rfl (by omega) h0 hN
  have hval : tree_path_length logf m t z = some (e.value logf) := by
    rw [tree_path_length_eq_exit logf m z t root hroot, he]
    rfl
  refine ⟨e, he, hsteps, hval, ?_⟩
  intro s hs
  have h1025 := hcap s hs
  refine ⟨h1025, ?_⟩
  rw [hval, hs, h1025]
  rfl

/-- Witness of C19: the one-node model whose node is its own child is left
through the cap with the value 1025. -/
theorem traversal_stops_within_cap_witness :
    (nodes_in_range (model_cyclic ℝ) 1 ∧ ([1, 0, 0, 0, 0] : List ℝ).length = NUM_FEATURES ∧
      rd (model_cyclic ℝ).tree_offsets 0 = some 0) ∧
    tree_walk_exit (model_cyclic ℝ) [1, 0, 0, 0, 0] 0 0 = some (walk_exit.capped 1025) ∧
    tree_path_length Real.log (model_cyclic ℝ) 0 [1, 0, 0, 0, 0] = some ((1025 : Nat) : ℝ) := by
  have h1 : nodes_in_range (model_cyclic ℝ) 1 := model_cyclic_in_range
  have h2 : ([1, 0, 0, 0, 0] : List ℝ).length = NUM_FEATURES := rfl
  have h3 : rd (model_cyclic ℝ).tree_offsets 0 = some 0 := by simp [rd, model_cyclic]
  have hc : tree_walk_exit (model_cyclic ℝ) [1, 0, 0, 0, 0] 0 0
      = some (walk_exit.capped 1025) := @model_cyclic_capped ℝ _ 1024 0 rfl
  obtain ⟨e, he, _, _, hcap⟩ :=
    traversal_stops_within_cap Real.log (model_cyclic ℝ) [1, 0, 0, 0, 0] 1 0 0 h1 h2 h3
      le_rfl (by decide)
  rw [hc] at he
  cases he
  exact ⟨⟨h1, h2, h3⟩, hc, (hcap 1025 rfl).2⟩

end TraversalClaims

section Binary32Traversal

set_option maxRecDepth 100000

end Binary32Traversal

section FdirClaims3
variable {α : Type} [LinearOrderedField α]

open fdir_state_t

theorem hold_enter_verify (c0 : fdir_ctx) (d0 t1 : timespec) (a0 : Bool) (f0 : features_t α)
    (s0 : α) (hH : c0.st = ST_HOLD) (hV : (fdir_step c0 d0 t1 a0 f0 s0).st = ST_VERIFY) :
    (fdir_step c0 d0 t1 a0 f0 s0).deadline = set_deadline_ms t1 VERIFY_MS := by
  unfold fdir_step at hV ⊢
  rw [hH] at hV ⊢
  simp only at hV ⊢
  split at hV
  · rename_i h1
    simp [h1]
  · simp [hH] at hV

/-- C21: in `ST_VERIFY`, entered at the clock reading `t1` (deadline
`t1 + VERIFY_MS`, 100 ms), on a tick whose feature vector does not satisfy the
relatch condition: if the deadline has elapsed `fdir_step` sets the dwell counter
to 0 and the state to `ST_NORMAL`, with no actuator call and the lines and the
deadline as they were; if it has not elapsed the context is unchanged. The
anomaly verdict (and the score) of the tick change nothing. -/
theorem verify_without_relatch (c0 c : fdir_ctx) (d0 t1 : timespec) (a0 : Bool)
    (f0 : features_t α) (s0 : α)
    (now_done now_arm : timespec) (anomaly : Bool) (f : features_t α) (score : α)
    (hH : c0.st = ST_HOLD) (hc : fdir_step c0 d0 t1 a0 f0 s0 = c) (hV : c.st = ST_VERIFY)
    (ht1 : t1.normalised) (hnow : now_done.normalised)
    (hnrel : ¬ (f.dI_dt > b32_val α (b32_mul THR_DIDT_A_PER_MS_b32 (b32_lit 8 10)) ∧
      f.Vout_droop > b32_val α (b32_mul THR_DROOP_V_b32 (b32_lit 8 10)))) :
    VERIFY_MS = 100 ∧
    (t1.ns + VERIFY_MS * 1000000 ≤ now_done.ns →
      fdir_step c now_done now_arm anomaly f score
        = { c with st := ST_NORMAL, dwell_hits := 0 } ∧
      (fdir_step c now_done now_arm anomaly f score).calls = c.calls ∧
      (fdir_step c now_done now_arm anomaly f score).en_line = c.en_line) ∧
    (now_done.ns < t1.ns + VERIFY_MS * 1000000 →
      fdir_step c now_done now_arm anomaly f score = c) ∧
    (∀ (anomaly1 : Bool) (score1 : α),
      fdir_step c now_done now_arm anomaly1 f score1
        = fdir_step c now_done now_arm anomaly f score) := by
  have hdl : c.deadline = set_deadline_ms t1 VERIFY_MS := by
    rw [← hc] at hV ⊢
    exact hold_enter_verify c0 d0 t1 a0 f0 s0 hH hV
  obtain ⟨hdn, hdns⟩ := set_deadline_ms_spec t1 VERIFY_MS ht1 (by decide)
  rw [← hdl] at hdn hdns
  have hdone : deadline_done now_done c.deadline = true ↔
      t1.ns + VERIFY_MS * 1000000 ≤ now_done.ns := by
    rw [deadline_done_iff _ _ hnow hdn, hdns]
  have hrel : (decide (f.dI_dt > b32_val α (b32_mul THR_DIDT_A_PER_MS_b32 (b32_lit 8 10))) &&
      decide (f.Vout_droop > b32_val α (b32_mul THR_DROOP_V_b32 (b32_lit 8 10)))) = false := by
    rw [Bool.and_eq_false_iff]
    simp only [decide_eq_false_iff_not]
    by_contra hcon
    push_neg at hcon
    exact hnrel hcon
  refine ⟨rfl, ?_, ?_, ?_⟩
  · intro hge
    have hd := hdone.mpr hge
    simp [fdir_step, hV, hrel, hd]
  · intro hlt
    have hd : ¬ deadline_done now_done c.deadline = true := by
      rw [hdone]; omega
    simp [fdir_step, hV, hrel, hd]
  · intro anomaly1 score1
    simp [fdir_step, hV]


/-- Witness of C21: `ST_VERIFY` entered at `(2, 5000000)`; a quiet tick at the
deadline `(2, 105000000)` returns to `ST_NORMAL`, a quiet tick 1 ns earlier
changes nothing. -/
theorem verify_without_relatch_witness :
    (ctx_hold.st = ST_HOLD ∧ ctx_verify_entered.st = ST_VERIFY ∧
      timespec.normalised { tv_sec := 2, tv_nsec := 5000000 } ∧
      ¬ (feat_quiet.dI_dt > b32_val ℚ (b32_mul THR_DIDT_A_PER_MS_b32 (b32_lit 8 10)) ∧
        feat_quiet.Vout_droop > b32_val ℚ (b32_mul THR_DROOP_V_b32 (b32_lit 8 10)))) ∧
    (fdir_step ctx_verify_entered { tv_sec := 2, tv_nsec := 105000000 }
        { tv_sec := 2, tv_nsec := 105000000 } true feat_quiet (0 : ℚ)
      = { ctx_verify_entered with st := ST_NORMAL, dwell_hits := 0 }) ∧
    (fdir_step ctx_verify_entered { tv_sec := 2, tv_nsec := 104999999 }
        { tv_sec := 2, tv_nsec := 104999999 } true feat_quiet (0 : ℚ)
      = ctx_verify_entered) :=
  have h1 : ctx_hold.st = ST_HOLD := by decide
  have h2 : ctx_verify_entered.st = ST_VERIFY := by decide
  have h3 : timespec.normalised { tv_sec := 2, tv_nsec := 5000000 } := by decide
  have h4 : ¬ (feat_quiet.dI_dt > b32_val ℚ (b32_mul THR_DIDT_A_PER_MS_b32 (b32_lit 8 10)) ∧
      feat_quiet.Vout_droop > b32_val ℚ (b32_mul THR_DROOP_V_b32 (b32_lit 8 10))) := by
    rw [relatch_didt_eq, relatch_droop_eq]
    norm_num [feat_quiet]
  ⟨⟨h1, h2, h3, h4⟩,
    ((verify_without_relatch ctx_hold ctx_verify_entered
      { tv_sec := 2, tv_nsec := 5000000 } { tv_sec := 2, tv_nsec := 5000000 } false
      feat_quiet (0 : ℚ) { tv_sec := 2, tv_nsec := 105000000 }
      { tv_sec := 2, tv_nsec := 105000000 } true feat_quiet (0 : ℚ)
      h1 rfl h2 h3 (by decide) h4).2.1 (by decide)).1,
    (verify_without_relatch ctx_hold ctx_verify_entered
      { tv_sec := 2, tv_nsec := 5000000 } { tv_sec := 2, tv_nsec := 5000000 } false
      feat_quiet (0 : ℚ) { tv_sec := 2, tv_nsec := 104999999 }
      { tv_sec := 2, tv_nsec := 104999999 } true feat_quiet (0 : ℚ)
      h1 rfl h2 h3 (by decide) h4).2.2.1 (by decide)⟩

theorem power_init_consistent (chip_ok en_ok ef_ok : Bool)
    (hinit : (power_init fdir_ctx.initial chip_ok en_ok ef_ok).1 = true) :
    (power_init fdir_ctx.initial chip_ok en_ok ef_ok).2.st = ST_NORMAL ∧
    (power_init fdir_ctx.initial chip_ok en_ok ef_ok).2.dwell_hits = 0 ∧
    (power_init fdir_ctx.initial chip_ok en_ok ef_ok).2.en_line = some true := by
  cases chip_ok <;> cases en_ok <;> cases ef_ok <;> first | exact absurd hinit (by decide) | decide

theorem fdir_step_consistent (c : fdir_ctx) (now_done now_arm : timespec) (anomaly : Bool)
    (f : features_t α) (score : α) (h : power_consistent c) :
    power_consistent (fdir_step c now_done now_arm anomaly f score) := by
  unfold power_consistent at h ⊢
  rcases h with ⟨hen, hst | hst⟩ | ⟨hen, hst | ⟨hst, hd0, hd1⟩⟩
  · -- ST_HOLD
    by_cases hd : deadline_done now_done c.deadline = true
    · right
      simp [fdir_step, hst, hd, power_restart_soft, gpio_set, hen]
    · left
      simp [fdir_step, hst, hd, hen]
  · -- ST_SAFE
    left
    simp [fdir_step, hst, hen]
  · -- ST_VERIFY
    by_cases hrel : (decide (f.dI_dt > b32_val α (b32_mul THR_DIDT_A_PER_MS_b32 (b32_lit 8 10))) &&
        decide (f.Vout_droop > b32_val α (b32_mul THR_DROOP_V_b32 (b32_lit 8 10)))) = true
    · left
      simp only [fdir_step, hst, hrel, if_true, power_cut, gpio_set, hen]
      simp
    · by_cases hd : deadline_done now_done c.deadline = true
      · right
        simp only [fdir_step, hst, hrel, hd, if_true]
        simp [hen, DWELL_HITS]
      · right
        simp only [fdir_step, hst, hrel, hd]
        simp [hen, hst]
  · -- ST_NORMAL
    cases anomaly
    · right
      simp [fdir_step, hst, hen, DWELL_HITS]
    · by_cases hge : c.dwell_hits + 1 ≥ DWELL_HITS
      · left
        simp [fdir_step, hst, hge, power_cut, gpio_set, hen]
      · right
        simp only [DWELL_HITS] at hge hd1
        simp [fdir_step, hst, hge, hen, DWELL_HITS]
        omega

/-- C22: in every state reached from the state left by a successful
`power_init` on the static initial context (state `ST_NORMAL`, counter 0, enable
line high) through any sequence of `fdir_step` ticks, with any inputs and any
clock readings (non-decreasing ones included), the enable line is low if and only
if the state is `ST_HOLD` or `ST_SAFE`, it is high otherwise, and in `ST_NORMAL`
the dwell counter satisfies `0 <= dwell_hits < DWELL_HITS`. -/
theorem power_state_consistency (chip_ok en_ok ef_ok : Bool) (ts : List (tick α))
    (hinit : (power_init fdir_ctx.initial chip_ok en_ok ef_ok).1 = true) :
    ((fdir_run (power_init fdir_ctx.initial chip_ok en_ok ef_ok).2 ts).en_line = some false ↔
      (fdir_run (power_init fdir_ctx.initial chip_ok en_ok ef_ok).2 ts).st = ST_HOLD ∨
      (fdir_run (power_init fdir_ctx.initial chip_ok en_ok ef_ok).2 ts).st = ST_SAFE) ∧
    ((fdir_run (power_init fdir_ctx.initial chip_ok en_ok ef_ok).2 ts).en_line = some true ↔
      (fdir_run (power_init fdir_ctx.initial chip_ok en_ok ef_ok).2 ts).st = ST_NORMAL ∨
      (fdir_run (power_init fdir_ctx.initial chip_ok en_ok ef_ok).2 ts).st = ST_VERIFY) ∧
    ((fdir_run (power_init fdir_ctx.initial chip_ok en_ok ef_ok).2 ts).st = ST_NORMAL →
      0 ≤ (fdir_run (power_init fdir_ctx.initial chip_ok en_ok ef_ok).2 ts).dwell_hits ∧
      (fdir_run (power_init fdir_ctx.initial chip_ok en_ok ef_ok).2 ts).dwell_hits
        < DWELL_HITS) := by
  obtain ⟨h1, h2, h3⟩ := power_init_consistent chip_ok en_ok ef_ok hinit
  have hinv : power_consistent
      (fdir_run (power_init fdir_ctx.initial chip_ok en_ok ef_ok).2 ts) := by
    induction ts using List.reverseRecOn with
    | nil =>
      show power_consistent (power_init fdir_ctx.initial chip_ok en_ok ef_ok).2
      right
      exact ⟨h3, Or.inr ⟨h1, by rw [h2], by rw [h2]; decide⟩⟩
    | append_singleton ts t ih =>
      rw [fdir_run_snoc]
      exact fdir_step_consistent _ _ _ _ _ _ ih
  generalize fdir_run (power_init fdir_ctx.initial chip_ok en_ok ef_ok).2 ts = c at hinv
  unfold power_consistent at hinv
  rcases hinv with ⟨hen, hst | hst⟩ | ⟨hen, hst | ⟨hst, hd0, hd1⟩⟩
  · simp [hen, hst]
  · simp [hen, hst]
  · simp [hen, hst]
  · simp [hen, hst, hd0, hd1]

/-- Witness of C22: `power_init` with the chip and the enable line available,
then two anomalous ticks, leaves the line low in `ST_HOLD`. -/
theorem power_state_consistency_witness :
    (power_init fdir_ctx.initial true true false).1 = true ∧
    ((fdir_run (power_init fdir_ctx.initial true true false).2
        [tick_at 1 0 true feat_quiet, tick_at 1 1000000 true feat_quiet]).en_line = some false ↔
      (fdir_run (power_init fdir_ctx.initial true true false).2
        [tick_at 1 0 true feat_quiet, tick_at 1 1000000 true feat_quiet]).st = ST_HOLD ∨
      (fdir_run (power_init fdir_ctx.initial true true false).2
        [tick_at 1 0 true feat_quiet, tick_at 1 1000000 true feat_quiet]).st = ST_SAFE) ∧
    (fdir_run (power_init fdir_ctx.initial true true false).2
        [tick_at 1 0 true feat_quiet, tick_at 1 1000000 true feat_quiet]).st = ST_HOLD :=
  have h : (power_init fdir_ctx.initial true true false).1 = true := by decide
  ⟨h, (power_state_consistency true true false
    [tick_at 1 0 true feat_quiet, tick_at 1 1000000 true feat_quiet] h).1, by decide⟩

end FdirClaims3

section BaselineClaims
variable {α : Type} [LinearOrderedField α]

theorem feats_compute_droop_locals (rb : rawbuf_t α) (out : features_t α)
    (hok : (feats_compute rb out).1 = true) :
    (feats_compute rb out).2.Vout_droop
      = mean_wrap rb.vout (baseline_start rb) (baseline_len rb)
        - mean_wrap rb.vout (get_window rb win_samples 0).2 win_samples := by
  have h20 : 20 ≤ rb.count := by
    by_contra hlt
    rw [feats_compute_not_ready rb out (by omega)] at hok
    simp at hok
  have hg := get_window_20 rb h20
  simp only [feats_compute, FS_HZ, WIN_MS, hg, BUF_MAX_eq, baseline_start, baseline_len,
    win_samples]
  norm_num

theorem baseline_len_pushes (l : List (RawSample α)) :
    baseline_len (pushes l) = min (5 * win_samples) (pushes l).count ∧
    baseline_len (pushes l) ≤ 60 := by
  have hc := pushes_count_le l
  rw [BUF_MAX_eq] at hc
  have hb : (100 : Nat) > (pushes l).count := by omega
  have e : baseline_len (pushes l) = (pushes l).count := by
    simp only [baseline_len, FS_HZ, WIN_MS]
    norm_num [hb]
  rw [e, win_samples_eq]
  omega


/-- C23: with the shipped configuration (`FS_HZ = 10000`, `WIN_MS = 2`, so
`win = 20` and `BUF_MAX = 60`), in every buffer state reached by `feats_reset`
and pushes the baseline span used for `Vout_droop` has length
`min(100, count) <= 60 = 3*win`, so it is never `5*win`; and on the first call at
which `feats_compute` succeeds (`count = win`) the baseline span is the window
itself and `Vout_droop` is exactly 0. -/
theorem baseline_never_five_windows (l : List (RawSample α)) (out : features_t α) :
    (FS_HZ = 10000 ∧ WIN_MS = 2 ∧ win_samples = 20 ∧ BUF_MAX = 60 ∧
      BUF_MAX = 3 * win_samples) ∧
    baseline_len (pushes l) = min (5 * win_samples) (pushes l).count ∧
    baseline_len (pushes l) ≤ BUF_MAX ∧
    baseline_len (pushes l) < 5 * win_samples ∧
    ((feats_compute (pushes l) out).1 = true →
      (feats_compute (pushes l) out).2.Vout_droop
        = mean_wrap (pushes l).vout (baseline_start (pushes l)) (baseline_len (pushes l))
          - mean_wrap (pushes l).vout (get_window (pushes l) win_samples 0).2 win_samples) ∧
    (l.length = win_samples →
      (feats_compute (pushes l) out).1 = true ∧
      (∀ n, n < l.length → (feats_compute (pushes (l.take n)) out).1 = false) ∧
      (pushes l).count = win_samples ∧
      baseline_len (pushes l) = win_samples ∧
      baseline_start (pushes l) = (get_window (pushes l) win_samples 0).2 ∧
      (feats_compute (pushes l) out).2.Vout_droop = 0) := by
  obtain ⟨hlen, hle⟩ := baseline_len_pushes l
  refine ⟨⟨rfl, rfl, rfl, rfl, rfl⟩, hlen, by rw [BUF_MAX_eq]; exact hle,
    by rw [win_samples_eq]; omega, feats_compute_droop_locals (pushes l) out, ?_⟩
  intro h20
  rw [win_samples_eq] at h20
  have hcount : (pushes l).count = 20 := by
    rw [pushes_count, BUF_MAX_eq, h20]; rfl
  have hok : (feats_compute (pushes l) out).1 = true :=
    feats_compute_ready _ _ (by omega)
  have hbl : baseline_len (pushes l) = 20 := by
    rw [hlen, hcount, win_samples_eq]; rfl
  have hstart : baseline_start (pushes l) = (get_window (pushes l) win_samples 0).2 := by
    rw [win_samples_eq, get_window_20 (pushes l) (by omega)]
    unfold baseline_start
    rw [hbl]
    exact ring_start (pushes l).idx 20 (by omega)
  refine ⟨hok, ?_, by rw [hcount]; rfl, by rw [hbl]; rfl, hstart, ?_⟩
  · intro n hn
    have hc : (pushes (l.take n)).count < 20 := by
      rw [pushes_count, BUF_MAX_eq, List.length_take]; omega
    rw [feats_compute_not_ready _ out hc]
  · rw [feats_compute_droop_locals (pushes l) out hok, hstart, hbl, win_samples_eq, sub_self]

/-- Witness of C23: after the 20 pushes of the ramp `feats_compute` succeeds for
the first time and the droop is 0. -/
theorem baseline_never_five_windows_witness :
    ramp_pushes.length = win_samples ∧
    (feats_compute (pushes ramp_pushes) out_prior).1 = true ∧
    (feats_compute (pushes (ramp_pushes.take 19)) out_prior).1 = false ∧
    baseline_len (pushes ramp_pushes) = win_samples ∧
    (feats_compute (pushes ramp_pushes) out_prior).2.Vout_droop = 0 :=
  have h : ramp_pushes.length = win_samples := rfl
  have H := (baseline_never_five_windows ramp_pushes out_prior).2.2.2.2.2 h
  ⟨h, H.1, H.2.1 19 (by decide), H.2.2.2.1, H.2.2.2.2.2⟩

end BaselineClaims

end FDIR
